import Mathlib

/-!
# microdb result printing (`microdb/src/resultprint.c`)

A shallow embedding of the result-display module of microdb and of the
declarations of `include/microdb.h` it uses, followed by theorems about it.

Conventions of the embedding.

* `int` is a 32-bit two's complement integer.  Values are carried as `Int`;
  the results of `int` arithmetic that can leave the range go through `wrap32`.
* `char` is a signed 8-bit integer (`toSigned8`); a byte of memory is a
  `Fin 256`.
* A multi-byte `memcpy` into an `int` is little-endian.
* Every `printf` call is recorded as one `Printf` event; `render` gives the
  characters the call writes to standard output.
* An access outside an array (`char page[PAGE_SIZE]`, `char
  stringValue[MAX_STRING]`, `fieldInfo[]`), a division by zero, a null
  dereference and a use of a released `TableInfo` have no defined behaviour in
  C: the functions return `none` there.
* An array that comes with its element count (`numField` with `fieldInfo[]`,
  `name[]`, `fieldData[]`) is the list of its first `numField` elements.  A
  `TableInfo` also carries the entries of `fieldInfo[]` behind them, which
  `printRecordSet` can read.
-/

namespace MicroDB

/-! ## Constants and declarations of `microdb.h` -/

/-- PAGE_SIZE: the unit of file access, in bytes. -/
def PAGE_SIZE : Nat := 4096

/-- MAX_FIELD: the largest number of fields of a record. -/
def MAX_FIELD : Nat := 40

/-- MAX_FIELD_NAME: the size of a field-name buffer, in bytes. -/
def MAX_FIELD_NAME : Nat := 20

/-- MAX_STRING: the size of a string-value buffer, in bytes. -/
def MAX_STRING : Nat := 255

/-- COLUMN_WIDTH: the width of a displayed column (`resultprint.c`). -/
def COLUMN_WIDTH : Int := 12

/-- The data types of a field.  `resultprint.c` names the integer and the
string tag `TYPE_INTEGER` and `TYPE_STRING`; every other tag (`TYPE_UNKNOWN`,
`TYPE_DOUBLE`) takes the `default` branch of its `switch` statements. -/
inductive DataType where
  | TYPE_UNKNOWN
  | TYPE_INTEGER
  | TYPE_DOUBLE
  | TYPE_STRING
  deriving DecidableEq

/-- A byte of memory. -/
abbrev Byte := Fin 256

/-- The value of a byte read through a `char` lvalue (signed, 8 bits). -/
def toSigned8 (b : Byte) : Int :=
  if b.val < 128 then (b.val : Int) else (b.val : Int) - 256

/-- The value an `int` computation yields: reduction into `[-2^31, 2^31)`. -/
def wrap32 (x : Int) : Int :=
  (x + 2147483648) % 4294967296 - 2147483648

/-! ## Standard output -/

/-- One call of `printf` of `resultprint.c`, with its arguments. -/
inductive Printf where
  /-- `printf("+")` -/
  | plus
  /-- `printf("-")` -/
  | minus
  /-- `printf("\n")` -/
  | newline
  /-- `printf("|")` -/
  | bar
  /-- `printf("%10s |", s)` -/
  | cellS (s : List Char)
  /-- `printf("%10d |", v)` -/
  | cellD (v : Int)
  /-- `printf("%d rows in set\n", n)` -/
  | rowsInSet (n : Int)
  deriving DecidableEq

/-- The conversion `%10s` / `%10d`: right-justified in a field of `w`
characters, never truncated. -/
def padLeft (w : Nat) (s : List Char) : List Char :=
  List.replicate (w - s.length) ' ' ++ s

/-- The conversion `%d`. -/
def decimal (v : Int) : List Char :=
  (toString v).toList

/-- The characters one `printf` call writes. -/
def render : Printf → List Char
  | .plus => ['+']
  | .minus => ['-']
  | .newline => ['\n']
  | .bar => ['|']
  | .cellS s => padLeft 10 s ++ [' ', '|']
  | .cellD v => padLeft 10 (decimal v) ++ [' ', '|']
  | .rowsInSet n => decimal n ++ " rows in set\n".toList

/-- The characters a sequence of `printf` calls writes. -/
def renderAll (out : List Printf) : List Char :=
  out.flatMap render

/-! ## `insertLine` -/

/-- The body of the loop of `insertLine`, run `fuel` times from `i`:
`if (i % m == 0) printf("+"); else printf("-");`. -/
def insertLineLoop (m : Int) : Nat → Int → List Printf
  | 0, _ => []
  | fuel + 1, i =>
    (if Int.tmod i m = 0 then Printf.plus else Printf.minus)
      :: insertLineLoop m fuel (i + 1)

/-- `insertLine(n, m)`: `for (i = 0; i < n*m+1; i++) ...; printf("\n");`.
The bound `n*m+1` is an `int`.  For `m = 0` the bound is `1`, so the body runs
and evaluates `0 % 0`. -/
def insertLine (n m : Int) : Option (List Printf) :=
  if m = 0 then none
  else some (insertLineLoop m (wrap32 (n * m + 1)).toNat 0 ++ [Printf.newline])

/-! ## Data structures -/

/-- FieldInfo: the name (the C string held in `char name[MAX_FIELD_NAME]`)
and the data type of a field. -/
structure FieldInfo where
  name : List Char
  dataType : DataType
  deriving DecidableEq

/-- TableInfo: `fieldInfo` lists the entries `fieldInfo[0 .. numField-1]` of
the array `FieldInfo fieldInfo[MAX_FIELD]`, the fields of the schema; `unused`
lists the entries `fieldInfo[numField ..]` that follow them in the array, with
whatever the memory of the object holds there. -/
structure TableInfo where
  fieldInfo : List FieldInfo
  unused : List FieldInfo
  deriving DecidableEq

/-- The member `numField` of a `TableInfo`. -/
def TableInfo.numField (t : TableInfo) : Int := t.fieldInfo.length

/-- The whole array `fieldInfo[]` of a `TableInfo`; an index past its end is
outside the object. -/
def TableInfo.array (t : TableInfo) : List FieldInfo := t.fieldInfo ++ t.unused

/-- FieldList: `name` lists the entries `name[0 .. numField-1]` of the array
`char name[MAX_FIELD][MAX_FIELD_NAME]`, each a C string. -/
structure FieldList where
  name : List (List Char)
  deriving DecidableEq

/-- The member `numField` of a `FieldList`. -/
def FieldList.numField (l : FieldList) : Int := l.name.length

/-- FieldData, with the members `resultprint.c` reads: `intValue` and
`stringValue` (a C string). -/
structure FieldData where
  name : List Char
  dataType : DataType
  intValue : Int
  stringValue : List Char
  deriving DecidableEq

/-- RecordData: `fieldData` lists `fieldData[0 .. numField-1]`.  The member
`next` is the tail of the list of records the node stands in. -/
structure RecordData where
  fieldData : List FieldData
  deriving DecidableEq

/-- RecordSet: the count `numRecord` and the null-terminated linked list
reached from `recordData` through `next`. -/
structure RecordSet where
  numRecord : Int
  recordData : List RecordData
  deriving DecidableEq

/-- RecordSlot: a slot-directory entry as `printTableData` copies it out of
the page (`flag` is a `char`). -/
structure RecordSlot where
  flag : Int
  offset : Int
  size : Int
  deriving DecidableEq

/-- A page buffer `char page[PAGE_SIZE]` as `readPage` fills it. -/
abbrev Page := List Byte

/-! ## Control flow and memory access -/

/-- How a statement ends: control falls through to the next statement
(`next`) or the enclosing function executed `return` (`ret`). -/
inductive Flow (σ : Type) where
  | next (s : σ)
  | ret (s : σ)
  deriving DecidableEq

/-- Sequencing: the second statement runs when the first falls through. -/
def andThen {σ : Type} (x : Option (Flow σ)) (f : σ → Option (Flow σ)) :
    Option (Flow σ) :=
  match x with
  | some (.next s) => f s
  | other => other

/-- A loop `for (j = 0; j < n; ++j) body` whose bound is not changed by the
body, run from state `s`. -/
def iter {σ : Type} (body : σ → Option (Flow σ)) : Nat → σ → Option (Flow σ)
  | 0, s => some (.next s)
  | n + 1, s => andThen (body s) (iter body n)

/-- A loop `for (k = 0; k < count; k++) body(array[k])` over the elements of
an array. -/
def forEach {α σ : Type} (body : α → σ → Option (Flow σ)) :
    List α → σ → Option (Flow σ)
  | [], s => some (.next s)
  | a :: as, s => andThen (body a s) (forEach body as)

/-- The byte `page[q]`; undefined outside the buffer. -/
def readByte (page : Page) (q : Int) : Option Byte :=
  if q < 0 then none else page[q.toNat]?

/-- `memcpy(&x, page + q, sizeof(int))` for an `int x`. -/
def readInt (page : Page) (q : Int) : Option Int := do
  let b0 ← readByte page q
  let b1 ← readByte page (q + 1)
  let b2 ← readByte page (q + 2)
  let b3 ← readByte page (q + 3)
  some (wrap32 ((b0.val : Int) + 256 * b1.val + 65536 * b2.val + 16777216 * b3.val))

/-- The bytes of the C string that starts a buffer; undefined when the buffer
ends before a NUL byte. -/
def cstr : List Byte → Option (List Byte)
  | [] => none
  | b :: bs => if b = 0 then some [] else (cstr bs).map (fun s => b :: s)

/-- `strcpy(stringValue, page + q)` into `char stringValue[MAX_STRING]`: the
string copied; undefined when the source is not terminated inside the page or
the copy, NUL included, does not fit the destination. -/
def strcpy (page : Page) (q : Int) : Option (List Byte) :=
  if q < 0 then none
  else
    match cstr (page.drop q.toNat) with
    | none => none
    | some s => if s.length + 1 ≤ MAX_STRING then some s else none

/-- The character a byte is written as. -/
def byteChar (b : Byte) : Char := Char.ofNat b.val

/-! ## `printTableHeader` -/

/-- The variables `printTableHeader` changes in its loop. -/
structure HeaderState where
  isIncluded : Int
  out : List Printf
  deriving DecidableEq

/-- The loop over `fieldList->name[j]`: `isIncluded = 1; break;` at the first
name equal (`strcmp`) to `name`, `isIncluded = 0` at every other name met. -/
def includedLoop (name : List Char) : List (List Char) → Int → Int
  | [], isIncluded => isIncluded
  | n :: ns, _ => if n = name then 1 else includedLoop name ns 0

/-- One iteration of the loop over `tableInfo->fieldInfo[i]`. -/
def headerBody (fieldList : Option FieldList) (f : FieldInfo) (s : HeaderState) :
    Option (Flow HeaderState) :=
  let isIncluded : Int :=
    match fieldList with
    | some l => includedLoop f.name l.name s.isIncluded
    | none => 1
  if isIncluded = 1 then
    match f.dataType with
    | .TYPE_INTEGER => some (.next ⟨isIncluded, s.out ++ [.cellS f.name]⟩)
    | .TYPE_STRING => some (.next ⟨isIncluded, s.out ++ [.cellS f.name]⟩)
    | _ => some (.ret ⟨isIncluded, s.out⟩)
  else some (.next ⟨isIncluded, s.out⟩)

/-- The first argument of the calls of `insertLine` that frame a table:
`fieldList == NULL ? tableInfo->numField : fieldList->numField` (the code
branches on `fieldList == NULL` around each call). -/
def ruleCount (tableInfo : TableInfo) (fieldList : Option FieldList) : Int :=
  match fieldList with
  | none => tableInfo.numField
  | some l => l.numField

/-- What a call of `printTableHeader` does: its output, and whether it
called `freeTableInfo(tableInfo)`. -/
structure HeaderResult where
  out : List Printf
  freed : Bool
  deriving DecidableEq

/-- `printTableHeader(tableInfo, fieldList)`; `fieldList = none` is `NULL`. -/
def printTableHeader (tableInfo : TableInfo) (fieldList : Option FieldList) :
    Option HeaderResult := do
  let n : Int := ruleCount tableInfo fieldList
  let line ← insertLine n COLUMN_WIDTH
  match ← forEach (headerBody fieldList) tableInfo.fieldInfo ⟨0, line ++ [.bar]⟩ with
  | .ret s => some ⟨s.out, true⟩
  | .next s =>
    let line2 ← insertLine n COLUMN_WIDTH
    some ⟨s.out ++ [.newline] ++ line2, false⟩

/-! ## `printTableData` -/

/-- The variables of the loop over the fields of a record. -/
structure RowState where
  q : Int
  out : List Printf
  deriving DecidableEq

/-- One iteration of the loop over the fields: the `switch` on
`tableInfo->fieldInfo[k].dataType`. -/
def fieldBody (page : Page) (f : FieldInfo) (s : RowState) : Option (Flow RowState) :=
  match f.dataType with
  | .TYPE_INTEGER => do
    let _intValue ← readInt page s.q
    let c ← readByte page s.q
    some (.next ⟨s.q + 4, s.out ++ [.cellD (toSigned8 c)]⟩)
  | .TYPE_STRING => do
    let stringLen ← readInt page s.q
    let stringValue ← strcpy page (s.q + 4)
    some (.next ⟨s.q + 4 + wrap32 (stringLen + 1),
      s.out ++ [.cellS (stringValue.map byteChar)]⟩)
  | _ => some (.ret s)

/-- The variables of the loop over the slots of a page. -/
structure SlotState where
  p : Int
  numRecord : Int
  out : List Printf
  deriving DecidableEq

/-- The three `memcpy` calls that fill `recordSlot` from `p`. -/
def readSlot (page : Page) (p : Int) : Option RecordSlot := do
  let flag ← readByte page p
  let offset ← readInt page (p + 1)
  let size ← readInt page (p + 5)
  some ⟨toSigned8 flag, offset, size⟩

/-- One iteration of the loop over the slots.  `freed` tells whether
`tableInfo` has been released (by `printTableHeader`). -/
def slotBody (tableInfo : TableInfo) (freed : Bool) (page : Page) (s : SlotState) :
    Option (Flow SlotState) := do
  let recordSlot ← readSlot page s.p
  let q := recordSlot.offset
  if recordSlot.flag = 1 then
    let numRecord := wrap32 (s.numRecord + 1)
    if freed then none
    else
      match ← forEach (fieldBody page) tableInfo.fieldInfo ⟨q, s.out ++ [.bar]⟩ with
      | .ret r => some (.ret ⟨s.p, numRecord, r.out⟩)
      | .next r => some (.next ⟨s.p + 9, numRecord, r.out ++ [.newline]⟩)
  else some (.next ⟨s.p + 9, s.numRecord, s.out⟩)

/-- The variables that live across the pages. -/
structure ScanState where
  numRecord : Int
  out : List Printf
  deriving DecidableEq

/-- One iteration of the loop over the pages, on the page `readPage`
delivered. -/
def pageBody (tableInfo : TableInfo) (freed : Bool) (page : Page) (s : ScanState) :
    Option (Flow ScanState) := do
  let numRecordSlot ← readInt page 0
  match ← iter (slotBody tableInfo freed page) numRecordSlot.toNat ⟨4, s.numRecord, s.out⟩ with
  | .ret r => some (.ret ⟨r.numRecord, r.out⟩)
  | .next r => some (.next ⟨r.numRecord, r.out⟩)

/-- What a call of `printTableData` or `printRecordSet` does: its output, and
whether it called `freeTableInfo(tableInfo)` and `freeRecordSet(recordSet)`. -/
structure Effect where
  out : List Printf
  tableInfoFreed : Bool
  recordSetFreed : Bool
  deriving DecidableEq

/-- `printTableData(tableName)`, given what `getTableInfo(tableName)` returns
(`none` is `NULL`) and the pages of the data file, in page-index order
(`getNumPages` gives their number and `readPage(file, i, page)` the `i`-th). -/
def printTableData (tableInfo : Option TableInfo) (file : List Page) : Option Effect :=
  match tableInfo with
  | none => some ⟨[], false, false⟩
  | some ti => do
    let h ← printTableHeader ti none
    match ← forEach (pageBody ti h.freed) file ⟨0, h.out⟩ with
    | .ret s => some ⟨s.out, true, false⟩
    | .next s =>
      if s.numRecord > 0 then
        if h.freed then none
        else do
          let line ← insertLine ti.numField COLUMN_WIDTH
          some ⟨s.out ++ line ++ [.rowsInSet s.numRecord], h.freed, false⟩
      else some ⟨s.out ++ [.rowsInSet s.numRecord], h.freed, false⟩

/-! ## `printRecordSet` -/

/-- The loop over `record->fieldData[j]`, from index `j`: the `switch` on
`tableInfo->fieldInfo[j].dataType`.  The index `j` runs up to
`record->numField` and is not compared with `tableInfo->numField`, so that
`fieldInfo[j]` may be an entry of the array behind the schema's fields. -/
def recordFieldLoop (tableInfo : TableInfo) (freed : Bool) :
    List FieldData → Nat → List Printf → Option (Flow (List Printf))
  | [], _, out => some (.next out)
  | d :: ds, j, out =>
    if freed then none
    else
      match tableInfo.array[j]? with
      | none => none
      | some f =>
        match f.dataType with
        | .TYPE_INTEGER =>
          recordFieldLoop tableInfo freed ds (j + 1) (out ++ [.cellD d.intValue])
        | .TYPE_STRING =>
          recordFieldLoop tableInfo freed ds (j + 1) (out ++ [.cellS d.stringValue])
        | _ => some (.ret out)

/-- The variables of the loop over the records. -/
structure RecordState where
  record : List RecordData
  out : List Printf
  deriving DecidableEq

/-- One iteration of the loop over the records; `record = []` is `NULL`. -/
def recordBody (tableInfo : TableInfo) (freed : Bool) (s : RecordState) :
    Option (Flow RecordState) :=
  match s.record with
  | [] => none
  | r :: next =>
    match recordFieldLoop tableInfo freed r.fieldData 0 (s.out ++ [.bar]) with
    | none => none
    | some (.ret out) => some (.ret ⟨s.record, out⟩)
    | some (.next out) => some (.next ⟨next, out ++ [.newline]⟩)

/-- `printRecordSet(tableName, recordSet, fieldList)`, given what
`getTableInfo(tableName)` returns. -/
def printRecordSet (tableInfo : Option TableInfo) (recordSet : RecordSet)
    (fieldList : Option FieldList) : Option Effect :=
  match tableInfo with
  | none => some ⟨[], false, false⟩
  | some ti => do
    let h ← printTableHeader ti fieldList
    match ← iter (recordBody ti h.freed) recordSet.numRecord.toNat
        ⟨recordSet.recordData, h.out⟩ with
    | .ret s => some ⟨s.out, true, true⟩
    | .next s =>
      if recordSet.numRecord > 0 then
        match fieldList with
        | none =>
          if h.freed then none
          else do
            let line ← insertLine ti.numField COLUMN_WIDTH
            some ⟨s.out ++ line ++ [.rowsInSet recordSet.numRecord], h.freed, false⟩
        | some l => do
          let line ← insertLine l.numField COLUMN_WIDTH
          some ⟨s.out ++ line ++ [.rowsInSet recordSet.numRecord], h.freed, false⟩
      else some ⟨s.out ++ [.rowsInSet recordSet.numRecord], h.freed, false⟩

/-! ## Definitions used to state the properties -/

/-- The character at position `i` of a rule line of column width `m`. -/
def ruleChar (m i : Nat) : Char := if i % m = 0 then '+' else '-'

/-- Whether a field list selects a schema field for display: every field when
the list is absent, else the fields whose name is in the list. -/
def displayed (fieldList : Option FieldList) (f : FieldInfo) : Bool :=
  match fieldList with
  | none => true
  | some l => decide (f.name ∈ l.name)

/-- The strings of the `%10s` cells of an output, in output order. -/
def cellNames (out : List Printf) : List (List Char) :=
  out.filterMap (fun e => match e with
    | .cellS s => some s
    | _ => none)

/-- A field of one of the two types `resultprint.c` displays. -/
def FieldInfo.printable (f : FieldInfo) : Prop :=
  f.dataType = .TYPE_INTEGER ∨ f.dataType = .TYPE_STRING

instance (f : FieldInfo) : Decidable f.printable := by
  unfold FieldInfo.printable; infer_instance

/-- The `printf` calls of `insertLine(n, COLUMN_WIDTH)` before its newline. -/
def ruleLine (n : Int) : List Printf :=
  insertLineLoop COLUMN_WIDTH (wrap32 (n * COLUMN_WIDTH + 1)).toNat 0

/-- The `printf` calls of the header row before its newline: `|` and one
`%10s |` cell for each displayed column. -/
def headerRow (tableInfo : TableInfo) (fieldList : Option FieldList) : List Printf :=
  [Printf.bar] ++ (tableInfo.fieldInfo.filter (displayed fieldList)).map
    (fun f => Printf.cellS f.name)

/-- The output of `printTableHeader(tableInfo, NULL)` for a table whose
fields are all displayed: rule line, header row, rule line. -/
def tableHeader (tableInfo : TableInfo) : List Printf :=
  ruleLine tableInfo.numField ++ [Printf.newline] ++ headerRow tableInfo none
    ++ [Printf.newline] ++ ruleLine tableInfo.numField ++ [Printf.newline]

/-- The directory entry of slot `j` of a page: the flag byte at `4 + 9*j`,
the offset at `5 + 9*j` and the size at `9 + 9*j`. -/
def slotAt (page : Page) (j : Nat) : Option RecordSlot :=
  readSlot page (4 + 9 * (j : Int))

/-- The slot count of a page: the `int` at bytes 0..3 (no slot when it is
negative). -/
def slotCount (page : Page) : Nat :=
  ((readInt page 0).getD 0).toNat

/-- The slots with flag byte 1 among the first `n` slots of a page, in
slot-directory order. -/
def usedSlotsUpTo (page : Page) (n : Nat) : List RecordSlot :=
  ((List.range n).filterMap (slotAt page)).filter (fun slot => decide (slot.flag = 1))

/-- The slots of a page with flag byte 1, in slot-directory order. -/
def usedSlots (page : Page) : List RecordSlot :=
  usedSlotsUpTo page (slotCount page)

/-- The row of the record a slot points to: `|`, one cell for each field of
the schema, decoded from page byte `offset`, and the newline; `none` when the
decoding leaves the page or the table has a field that is not displayed. -/
def rowOf (tableInfo : TableInfo) (page : Page) (slot : RecordSlot) : Option (List Printf) :=
  match forEach (fieldBody page) tableInfo.fieldInfo ⟨slot.offset, [.bar]⟩ with
  | some (.next r) => some (r.out ++ [.newline])
  | _ => none

/-- The rows of the used slots of a page, in slot-directory order. -/
def pageRows (tableInfo : TableInfo) (page : Page) : List (List Printf) :=
  (usedSlots page).filterMap (rowOf tableInfo page)

/-- A well-formed page of a table: the slot count and the directory entries of
all its slots lie inside the page, and every used slot points to a record of
the schema that lies inside the page, its strings terminated and short enough
for `stringValue`. -/
def pageOk (tableInfo : TableInfo) (page : Page) : Bool :=
  (readInt page 0).isSome &&
  (List.range (slotCount page)).all (fun j =>
    match slotAt page j with
    | none => false
    | some slot => !(decide (slot.flag = 1)) || (rowOf tableInfo page slot).isSome)

/-- The number of slots with flag byte 1 over all pages of a file. -/
def usedCount (file : List Page) : Nat :=
  (file.map (fun page => (usedSlots page).length)).sum

/-- The value of `numRecord` after `n` executions of `numRecord++`. -/
def countUp : Nat → Int → Int
  | 0, x => x
  | n + 1, x => countUp n (wrap32 (x + 1))

/-- The cell of a field value in a row of `printRecordSet`, by the data type
of the schema field at the same index. -/
def recordCell (d : FieldData) (f : FieldInfo) : Printf :=
  match f.dataType with
  | .TYPE_INTEGER => .cellD d.intValue
  | _ => .cellS d.stringValue

/-- The row of a record in `printRecordSet`: `|`, one cell for each of its
`numField` field values, and the newline. -/
def recordRow (tableInfo : TableInfo) (record : RecordData) : List Printf :=
  [Printf.bar] ++ List.zipWith recordCell record.fieldData tableInfo.fieldInfo
    ++ [Printf.newline]

/-- The first `record->numField` fields of the schema exist and are of type
Integer or String. -/
def recordFits (tableInfo : TableInfo) (record : RecordData) : Prop :=
  record.fieldData.length ≤ tableInfo.fieldInfo.length ∧
  ∀ f ∈ tableInfo.fieldInfo.take record.fieldData.length, f.printable

instance (tableInfo : TableInfo) (record : RecordData) :
    Decidable (recordFits tableInfo record) := by
  unfold recordFits; infer_instance

/-! ## Example data -/

/-- A page with one used slot (offset 13, size 260) whose record, of the
schema `(s String)`, is the length prefix 255, 255 bytes `A` and a NUL; the
rest of the 4096 bytes is zero. -/
def longStringPage : Page :=
  [1, 0, 0, 0, 1, 13, 0, 0, 0, 4, 1, 0, 0, 255, 0, 0, 0]
    ++ (List.replicate 255 65 ++ ([0] ++ List.replicate 3823 0))

/-- A page whose slot count is 455, all its slots free; the rest of the 4096
bytes is zero.  The directory entry of slot 454 starts at byte 4090 and its
size field would occupy bytes 4095 to 4098. -/
def overfullPage : Page :=
  [199, 1, 0, 0] ++ List.replicate 4092 0

/-- A page with two used slots (offsets 22 and 26, size 4) that hold the
records `(7)` and `(8)` of the schema `(n Integer)`; the rest of the 4096 bytes
is zero. -/
def twoRowPage : Page :=
  [2, 0, 0, 0, 1, 22, 0, 0, 0, 4, 0, 0, 0, 1, 26, 0, 0, 0, 4, 0, 0, 0, 7, 0, 0, 0, 8, 0, 0, 0]
    ++ List.replicate 4066 0

/-! ## Basic facts -/

theorem wrap32_of_range (x : Int) (h1 : -2147483648 ≤ x) (h2 : x < 2147483648) :
    wrap32 x = x := by
  unfold wrap32
  rw [Int.emod_eq_of_lt (by omega) (by omega)]
  omega

theorem renderAll_append (a b : List Printf) :
    renderAll (a ++ b) = renderAll a ++ renderAll b := by
  simp [renderAll]

theorem renderAll_cons (a : Printf) (b : List Printf) :
    renderAll (a :: b) = render a ++ renderAll b := by
  simp [renderAll]

theorem renderAll_nil : renderAll [] = [] := rfl

theorem renderAll_insertLineLoop (m : Nat) (k i : Nat) :
    renderAll (insertLineLoop (m : Int) k (i : Int))
      = (List.range k).map (fun t => ruleChar m (i + t)) := by
  induction k generalizing i with
  | zero => simp [insertLineLoop, renderAll]
  | succ k ih =>
    have hcast : ((i : Int) + 1) = ((i + 1 : Nat) : Int) := by push_cast; ring
    have hmod : Int.tmod (i : Int) (m : Int) = ((i % m : Nat) : Int) := rfl
    rw [insertLineLoop, renderAll_cons, hcast, ih (i + 1), List.range_succ_eq_map]
    simp only [List.map_cons, List.map_map, hmod]
    have : (fun t => ruleChar m (i + 1 + t)) = (fun t => ruleChar m (i + t)) ∘ Nat.succ := by
      funext t; simp [Nat.succ_eq_add_one]; congr 1; omega
    rw [this]
    by_cases h : i % m = 0
    · rw [if_pos (by exact_mod_cast h)]
      simp [h, render, ruleChar]
    · rw [if_neg (by exact_mod_cast h)]
      simp [h, render, ruleChar]

theorem countP_multiples (m n : Nat) (hm : 1 ≤ m) :
    (List.range (n * m + 1)).countP (fun i => decide (i % m = 0)) = n + 1 := by
  induction n with
  | zero =>
    rw [show List.range (0 * m + 1) = [0] by simp [List.range_succ]]
    simp
  | succ n ih =>
    have e : (n + 1) * m + 1 = (n * m + 1) + m := by ring
    rw [e, List.range_add, List.countP_append, ih, List.countP_map]
    have : List.countP ((fun i => decide (i % m = 0)) ∘ fun x => n * m + 1 + x) (List.range m)
        = List.countP (fun t => decide (t = m - 1)) (List.range m) := by
      apply List.countP_congr
      intro t ht
      have ht2 : t < m := List.mem_range.mp ht
      simp only [Function.comp, decide_eq_true_eq]
      constructor
      · intro h
        by_contra hne
        have h3 : t + 1 < m := by omega
        have : (n * m + 1 + t) % m = t + 1 := by
          rw [show n * m + 1 + t = (t + 1) + m * n by ring, Nat.add_mul_mod_self_left,
            Nat.mod_eq_of_lt h3]
        omega
      · intro h
        subst h
        have : n * m + 1 + (m - 1) = m * (n + 1) := by
          have : n * m + 1 + (m - 1) = n * m + m := by omega
          rw [this]; ring
        rw [this]; exact Nat.mul_mod_right m (n + 1)
    rw [this]
    have h1 : List.countP (fun t => decide (t = m - 1)) (List.range m)
        = List.count (m - 1) (List.range m) := by
      rw [List.count]; apply List.countP_congr; intro t _; simp
    rw [h1, List.count_eq_one_of_mem (List.nodup_range m) (List.mem_range.mpr (by omega))]

/-! ## `insertLine` -/

theorem count_ruleChar (m : Nat) (l : List Nat) :
    (l.map (ruleChar m)).count '+' + (l.map (ruleChar m)).count '-' = l.length := by
  induction l with
  | nil => simp
  | cons a l ih =>
    by_cases h : a % m = 0
    · simp [ruleChar, h] at ih ⊢; omega
    · simp [ruleChar, h] at ih ⊢; omega

theorem insertLine_render (n m : Nat) (hm : 1 ≤ m) (hb : n * m + 1 ≤ 2147483647) :
    (insertLine (n : Int) (m : Int)).map renderAll
      = some ((List.range (n * m + 1)).map (ruleChar m) ++ ['\n']) := by
  have hm0 : ¬ ((m : Int) = 0) := by omega
  have hc : (n : Int) * m + 1 = ((n * m + 1 : Nat) : Int) := by push_cast; ring
  have hw : wrap32 ((n : Int) * m + 1) = ((n * m + 1 : Nat) : Int) := by
    rw [hc, wrap32_of_range] <;> omega
  unfold insertLine
  rw [if_neg hm0, hw, Int.toNat_ofNat, Option.map_some', renderAll_append]
  have := renderAll_insertLineLoop m (n * m + 1) 0
  simp only [Nat.cast_zero, Nat.zero_add] at this
  rw [this]
  rfl

/-- C8 (amended): for `n ≥ 0` and `m ≥ 1` with `n*m+1` at most `INT_MAX`,
`insertLine(n, m)` writes `n*m+1` characters followed by a newline; the
character at position `i` is `+` when `i` is a multiple of `m` and `-`
otherwise, so the line holds `n+1` characters `+` and `n*(m-1)` characters `-`
and begins and ends with `+`. -/
theorem insertLine_line (n m : Nat) (hm : 1 ≤ m) (hb : n * m + 1 ≤ 2147483647) :
    ∃ chars : List Char,
      (insertLine (n : Int) (m : Int)).map renderAll = some (chars ++ ['\n']) ∧
      chars.length = n * m + 1 ∧
      (∀ i, i < n * m + 1 → chars[i]? = some (if i % m = 0 then '+' else '-')) ∧
      chars.count '+' = n + 1 ∧ chars.count '-' = n * (m - 1) ∧
      chars.head? = some '+' ∧ chars.getLast? = some '+' := by
  refine ⟨(List.range (n * m + 1)).map (ruleChar m), insertLine_render n m hm hb, by simp,
    ?_, ?_, ?_, ?_, ?_⟩
  · intro i hi
    simp [List.getElem?_map, List.getElem?_range hi, ruleChar]
  · rw [List.count, List.countP_map, ← countP_multiples m n hm]
    apply List.countP_congr
    intro i _
    by_cases h : i % m = 0 <;> simp [ruleChar, h]
  · have hlen : ((List.range (n * m + 1)).map (ruleChar m)).length = n * m + 1 := by simp
    have hplus : ((List.range (n * m + 1)).map (ruleChar m)).count '+' = n + 1 := by
      rw [List.count, List.countP_map, ← countP_multiples m n hm]
      apply List.countP_congr
      intro i _
      by_cases h : i % m = 0 <;> simp [ruleChar, h]
    have hsum := count_ruleChar m (List.range (n * m + 1))
    rw [List.length_range] at hsum
    have : n * (m - 1) + n = n * m := by
      obtain ⟨k, rfl⟩ : ∃ k, m = k + 1 := ⟨m - 1, by omega⟩
      simp; ring
    omega
  · rw [List.range_succ_eq_map]; simp [ruleChar]
  · rw [List.range_succ]; simp [ruleChar]

/-- C8, witness: the rule line of three columns of width four. -/
theorem insertLine_line_witness :
    ∃ chars : List Char,
      (insertLine ((3 : Nat) : Int) ((4 : Nat) : Int)).map renderAll = some (chars ++ ['\n']) ∧
      chars.length = 3 * 4 + 1 ∧
      (∀ i, i < 3 * 4 + 1 → chars[i]? = some (if i % 4 = 0 then '+' else '-')) ∧
      chars.count '+' = 3 + 1 ∧ chars.count '-' = 3 * (4 - 1) ∧
      chars.head? = some '+' ∧ chars.getLast? = some '+' :=
  insertLine_line 3 4 (by decide) (by decide)

/-- C8 as stated fails: for `n = 2^30` and `m = 2` the `int` bound `n*m+1`
is `-2147483647`, the loop body never runs and `insertLine` writes the newline
alone, not `n*m+1 = 2147483649` characters before it. -/
theorem insertLine_overflow :
    (0 : Int) ≤ 1073741824 ∧ (1 : Int) ≤ 2 ∧
    (insertLine 1073741824 2).map renderAll = some ['\n'] ∧
    ¬ ∃ chars : List Char,
      (insertLine 1073741824 2).map renderAll = some (chars ++ ['\n']) ∧
      chars.length = 1073741824 * 2 + 1 := by
  have h : (insertLine 1073741824 2).map renderAll = some ['\n'] := by decide
  refine ⟨by decide, by decide, h, ?_⟩
  rintro ⟨chars, h1, h2⟩
  rw [h] at h1
  have h3 : chars = [] := by simpa using h1
  subst h3
  simp at h2

/-! ## Loops -/

theorem andThen_some_next {σ : Type} (s : σ) (f : σ → Option (Flow σ)) :
    andThen (some (.next s)) f = f s := rfl

theorem andThen_some_ret {σ : Type} (s : σ) (f : σ → Option (Flow σ)) :
    andThen (some (.ret s)) f = some (.ret s) := rfl

theorem andThen_none {σ : Type} (f : σ → Option (Flow σ)) :
    andThen none f = none := rfl

theorem andThen_assoc {σ : Type} (x : Option (Flow σ)) (f g : σ → Option (Flow σ)) :
    andThen (andThen x f) g = andThen x (fun s => andThen (f s) g) := by
  rcases x with _ | ⟨s | s⟩ <;> rfl

theorem forEach_append {α σ : Type} (body : α → σ → Option (Flow σ)) (l1 l2 : List α)
    (s : σ) : forEach body (l1 ++ l2) s = andThen (forEach body l1 s) (forEach body l2) := by
  induction l1 generalizing s with
  | nil => rfl
  | cons a l1 ih =>
    simp only [List.cons_append, forEach, andThen_assoc]
    congr 1
    funext t
    exact ih t

theorem iter_add {σ : Type} (body : σ → Option (Flow σ)) (a b : Nat) (s : σ) :
    iter body (a + b) s = andThen (iter body a s) (iter body b) := by
  induction a generalizing s with
  | zero => simp [iter, andThen]
  | succ a ih =>
    rw [Nat.add_right_comm]
    simp only [iter, andThen_assoc]
    congr 1
    funext t
    exact ih t

theorem iter_succ_last {σ : Type} (body : σ → Option (Flow σ)) (n : Nat) (s : σ) :
    iter body (n + 1) s = andThen (iter body n s) body := by
  rw [iter_add]
  congr 1
  funext t
  simp [iter]
  rcases body t with _ | ⟨u | u⟩ <;> rfl

/-! ## `printTableHeader` -/

theorem includedLoop_eq (name : List Char) (names : List (List Char)) (inc : Int) :
    includedLoop name names inc
      = if names = [] then inc else if name ∈ names then 1 else 0 := by
  induction names generalizing inc with
  | nil => simp [includedLoop]
  | cons n ns ih =>
    simp only [includedLoop, ih, reduceCtorEq, if_false, List.mem_cons]
    by_cases h : n = name
    · simp [h]
    · have h2 : ¬ name = n := fun e => h e.symm
      by_cases hns : ns = []
      · simp [h, h2, hns]
      · simp [h, h2, hns]

theorem forEach_headerBody (fieldList : Option FieldList) (fields : List FieldInfo)
    (hty : ∀ f ∈ fields, displayed fieldList f = true → f.printable) (inc : Int)
    (out : List Printf)
    (hinc : ∀ l, fieldList = some l → l.name = [] → inc = 0) :
    ∃ inc2, forEach (headerBody fieldList) fields ⟨inc, out⟩
      = some (.next ⟨inc2,
          out ++ (fields.filter (displayed fieldList)).map (fun f => Printf.cellS f.name)⟩) := by
  induction fields generalizing inc out with
  | nil => exact ⟨inc, by simp [forEach]⟩
  | cons f fs ih =>
    have hf : displayed fieldList f = true → f.printable := hty f (List.mem_cons_self _ _)
    have hfs : ∀ g ∈ fs, displayed fieldList g = true → g.printable :=
      fun g hg => hty g (List.mem_cons_of_mem _ hg)
    rcases fieldList with _ | l
    · -- no field list: every field is included
      obtain ⟨inc2, h2⟩ := ih hfs 1 (out ++ [Printf.cellS f.name]) (by intro l hl; cases hl)
      refine ⟨inc2, ?_⟩
      rcases hf rfl with hf | hf <;>
        simp [forEach, headerBody, hf, andThen, h2, displayed]
    · by_cases hl : l.name = []
      · have h0 : inc = 0 := hinc l rfl hl
        obtain ⟨inc2, h2⟩ := ih hfs 0 out (by intro _ _ _; rfl)
        refine ⟨inc2, ?_⟩
        subst h0
        simp [forEach, headerBody, includedLoop_eq, hl, andThen, displayed] at h2 ⊢
        exact h2
      · by_cases hm : f.name ∈ l.name
        · obtain ⟨inc2, h2⟩ := ih hfs 1 (out ++ [Printf.cellS f.name])
            (by intro l2 e1 e2; cases e1; exact absurd e2 hl)
          refine ⟨inc2, ?_⟩
          rcases hf (by simp [displayed, hm]) with hf | hf <;>
            simp [forEach, headerBody, includedLoop_eq, hl, hm, hf, andThen, displayed] at h2 ⊢ <;>
            exact h2
        · obtain ⟨inc2, h2⟩ := ih hfs 0 out
            (by intro l2 e1 e2; cases e1; exact absurd e2 hl)
          refine ⟨inc2, ?_⟩
          simp [forEach, headerBody, includedLoop_eq, hl, hm, andThen, displayed] at h2 ⊢
          exact h2

theorem insertLine_columnWidth (n : Int) :
    insertLine n COLUMN_WIDTH = some (ruleLine n ++ [Printf.newline]) := by
  simp [insertLine, ruleLine, COLUMN_WIDTH]

theorem insertLineLoop_plus_minus (m : Int) (k : Nat) (i : Int) :
    ∀ e ∈ insertLineLoop m k i, e = Printf.plus ∨ e = Printf.minus := by
  induction k generalizing i with
  | zero => simp [insertLineLoop]
  | succ k ih =>
    intro e he
    simp only [insertLineLoop, List.mem_cons] at he
    rcases he with he | he
    · subst he; split <;> simp
    · exact ih _ e he

theorem cellNames_append (a b : List Printf) :
    cellNames (a ++ b) = cellNames a ++ cellNames b := by
  simp [cellNames]

theorem cellNames_ruleLine (n : Int) : cellNames (ruleLine n) = [] := by
  unfold cellNames
  rw [List.filterMap_eq_nil_iff]
  intro e he
  rcases insertLineLoop_plus_minus _ _ _ e he with h | h <;> subst h <;> rfl

theorem cellNames_map_cellS (fs : List FieldInfo) :
    cellNames (fs.map (fun f => Printf.cellS f.name)) = fs.map (fun f => f.name) := by
  induction fs with
  | nil => rfl
  | cons f fs ih => simp [cellNames] at ih ⊢; exact ih

theorem printTableHeader_displayed (ti : TableInfo) (fieldList : Option FieldList)
    (hty : ∀ f ∈ ti.fieldInfo, displayed fieldList f = true → f.printable) :
    printTableHeader ti fieldList
      = some ⟨ruleLine (ruleCount ti fieldList) ++ [Printf.newline] ++ headerRow ti fieldList
          ++ [Printf.newline] ++ ruleLine (ruleCount ti fieldList) ++ [Printf.newline], false⟩ := by
  obtain ⟨inc2, h⟩ := forEach_headerBody fieldList ti.fieldInfo hty 0
    (ruleLine (ruleCount ti fieldList) ++ [Printf.newline] ++ [Printf.bar]) (by intros; rfl)
  simp only [printTableHeader, insertLine_columnWidth, Option.bind_eq_bind,
    Option.some_bind, h, headerRow]
  simp

theorem printTableHeader_printable (ti : TableInfo) (fieldList : Option FieldList)
    (hty : ∀ f ∈ ti.fieldInfo, f.printable) :
    printTableHeader ti fieldList
      = some ⟨ruleLine (ruleCount ti fieldList) ++ [Printf.newline] ++ headerRow ti fieldList
          ++ [Printf.newline] ++ ruleLine (ruleCount ti fieldList) ++ [Printf.newline], false⟩ :=
  printTableHeader_displayed ti fieldList (fun f hf _ => hty f hf)

/-- C5: for a schema whose fields are all of type Integer or String,
`printTableHeader` prints as column names exactly the schema's fields whose
name is one of the names of the field list, each once and in schema order;
with no field list it prints every schema field in schema order, and with an
empty field list it prints no column.  The names stand in the header row,
between two rule lines, and the `TableInfo` is not released. -/
theorem printTableHeader_columns (ti : TableInfo) (fieldList : Option FieldList)
    (hty : ∀ f ∈ ti.fieldInfo, f.dataType = .TYPE_INTEGER ∨ f.dataType = .TYPE_STRING) :
    ∃ r, printTableHeader ti fieldList = some r ∧ r.freed = false ∧
      r.out = ruleLine (ruleCount ti fieldList) ++ [Printf.newline]
        ++ ([Printf.bar] ++ (ti.fieldInfo.filter (displayed fieldList)).map
              (fun f => Printf.cellS f.name))
        ++ [Printf.newline] ++ ruleLine (ruleCount ti fieldList) ++ [Printf.newline] ∧
      cellNames r.out
        = (ti.fieldInfo.filter (fun f =>
            match fieldList with
            | none => true
            | some l => decide (∃ n ∈ l.name, n = f.name))).map (fun f => f.name) ∧
      (fieldList = none → cellNames r.out = ti.fieldInfo.map (fun f => f.name)) ∧
      (∀ l, fieldList = some l → l.name = [] → cellNames r.out = []) := by
  have hnames : cellNames (ruleLine (ruleCount ti fieldList) ++ [Printf.newline]
      ++ headerRow ti fieldList ++ [Printf.newline] ++ ruleLine (ruleCount ti fieldList)
      ++ [Printf.newline])
      = (ti.fieldInfo.filter (displayed fieldList)).map (fun f => f.name) := by
    simp only [cellNames_append, cellNames_ruleLine, headerRow, cellNames_map_cellS]
    simp [cellNames]
  refine ⟨_, printTableHeader_printable ti fieldList hty, rfl, rfl, ?_, ?_, ?_⟩
  · rw [hnames]
    congr 1
    apply List.filter_congr
    intro f _
    cases fieldList <;> simp [displayed]
  · intro h
    subst h
    rw [hnames]
    have hd : displayed none = fun _ => true := by funext f; rfl
    simp [hd]
  · intro l h hl
    subst h
    rw [hnames]
    simp [displayed, hl]

/-- C5, witness: the schema `(id Integer, name String, age Integer)` with the
field list `age, id`. -/
theorem printTableHeader_columns_witness :
    ∃ r, printTableHeader
        ⟨[⟨['i', 'd'], .TYPE_INTEGER⟩, ⟨['n', 'a', 'm', 'e'], .TYPE_STRING⟩,
          ⟨['a', 'g', 'e'], .TYPE_INTEGER⟩], []⟩
        (some ⟨[['a', 'g', 'e'], ['i', 'd']]⟩) = some r ∧
      cellNames r.out = [['i', 'd'], ['a', 'g', 'e']] := by
  obtain ⟨r, h1, _, _, h4, _⟩ := printTableHeader_columns
    ⟨[⟨['i', 'd'], .TYPE_INTEGER⟩, ⟨['n', 'a', 'm', 'e'], .TYPE_STRING⟩,
      ⟨['a', 'g', 'e'], .TYPE_INTEGER⟩], []⟩
    (some ⟨[['a', 'g', 'e'], ['i', 'd']]⟩) (by decide)
  exact ⟨r, h1, by rw [h4]; decide⟩

theorem render_cellS_length (s : List Char) (h : s.length ≤ 10) :
    (render (Printf.cellS s)).length = 12 := by
  simp [render, padLeft]; omega

theorem renderAll_cells_length (fs : List FieldInfo) (h : ∀ f ∈ fs, f.name.length ≤ 10) :
    (renderAll (fs.map (fun f => Printf.cellS f.name))).length = 12 * fs.length := by
  induction fs with
  | nil => rfl
  | cons f fs ih =>
    rw [List.map_cons, renderAll_cons, List.length_append,
      render_cellS_length _ (h f (List.mem_cons_self _ _)),
      ih (fun g hg => h g (List.mem_cons_of_mem _ hg)), List.length_cons]
    ring

theorem renderAll_ruleLine_length (k : Nat) (hk : k ≤ MAX_FIELD) :
    (renderAll (ruleLine (k : Int))).length = 12 * k + 1 := by
  have hk2 : k ≤ 40 := hk
  have hc : (k : Int) * COLUMN_WIDTH + 1 = ((k * 12 + 1 : Nat) : Int) := by
    simp [COLUMN_WIDTH]
  have hw : wrap32 ((k : Int) * COLUMN_WIDTH + 1) = ((k * 12 + 1 : Nat) : Int) := by
    rw [hc, wrap32_of_range] <;> omega
  have h := renderAll_insertLineLoop 12 (k * 12 + 1) 0
  simp only [Nat.cast_zero] at h
  rw [ruleLine, hw, Int.toNat_ofNat, show COLUMN_WIDTH = ((12 : Nat) : Int) from rfl, h]
  simp; ring

theorem displayed_count (fields : List FieldInfo) (l : FieldList)
    (hnodup : (fields.map (fun f => f.name)).Nodup) (hl : l.name.Nodup)
    (hsub : ∀ n ∈ l.name, ∃ f ∈ fields, f.name = n) :
    (fields.filter (displayed (some l))).length = l.name.length := by
  have h1 : (fields.filter (displayed (some l))).map (fun f => f.name)
      = (fields.map (fun f => f.name)).filter (fun n => decide (n ∈ l.name)) := by
    rw [List.filter_map]
    rfl
  have h2 : ((fields.map (fun f => f.name)).filter (fun n => decide (n ∈ l.name))).Perm l.name := by
    rw [List.perm_ext_iff_of_nodup (hnodup.filter _) hl]
    intro a
    simp only [List.mem_filter, List.mem_map, decide_eq_true_eq]
    constructor
    · exact fun h => h.2
    · exact fun h => ⟨hsub a h, h⟩
  rw [← List.length_map (fields.filter (displayed (some l))) (fun f => f.name), h1, h2.length_eq]

/-- C9: for a schema whose fields are all of type Integer or String with
names of at most 10 characters, and a field list that is absent or consists of
pairwise distinct names that all occur in the schema, the header row
`printTableHeader` prints (`|` and one `%10s |` cell for each displayed
column) is as long as the rule lines printed above and below it: `12*k + 1`
characters, `k` the number of displayed columns.  The schema is held by a
`TableInfo` object, whose array `fieldInfo[]` has `MAX_FIELD` entries
(`harr`), and the names of its fields are unique within the schema
(`hnodup`). -/
theorem header_row_length (ti : TableInfo) (fieldList : Option FieldList)
    (hty : ∀ f ∈ ti.fieldInfo, f.dataType = .TYPE_INTEGER ∨ f.dataType = .TYPE_STRING)
    (hname : ∀ f ∈ ti.fieldInfo, f.name.length ≤ 10)
    (harr : ti.array.length = MAX_FIELD)
    (hnodup : (ti.fieldInfo.map (fun f => f.name)).Nodup)
    (hfl : ∀ l, fieldList = some l →
      l.name.Nodup ∧ ∀ n ∈ l.name, ∃ f ∈ ti.fieldInfo, f.name = n) :
    ∃ (r : HeaderResult) (rule row : List Char),
      printTableHeader ti fieldList = some r ∧
      renderAll r.out = rule ++ ['\n'] ++ row ++ ['\n'] ++ rule ++ ['\n'] ∧
      rule = renderAll (ruleLine (ruleCount ti fieldList)) ∧
      row = renderAll ([Printf.bar] ++ (ti.fieldInfo.filter (displayed fieldList)).map
              (fun f => Printf.cellS f.name)) ∧
      row.length = 12 * (ti.fieldInfo.filter (displayed fieldList)).length + 1 ∧
      rule.length = 12 * (ti.fieldInfo.filter (displayed fieldList)).length + 1 := by
  have hmax : ti.fieldInfo.length ≤ MAX_FIELD := by
    unfold TableInfo.array at harr
    rw [List.length_append] at harr
    omega
  refine ⟨_, _, _, printTableHeader_printable ti fieldList hty, ?_, rfl, rfl, ?_, ?_⟩
  · simp only [renderAll_append, headerRow]
    simp [renderAll, render]
  · rw [renderAll_append, List.length_append, renderAll_cells_length]
    · simp [renderAll, render]; omega
    · intro f hf
      exact hname f (List.mem_of_mem_filter hf)
  · rcases fieldList with _ | l
    · have hd : displayed none = fun _ => true := by funext f; rfl
      have : ruleCount ti none = ((ti.fieldInfo.length : Nat) : Int) := rfl
      rw [this, renderAll_ruleLine_length _ hmax, hd]
      simp
    · obtain ⟨h1, h2⟩ := hfl l rfl
      have hc := displayed_count ti.fieldInfo l hnodup h1 h2
      have : ruleCount ti (some l) = ((l.name.length : Nat) : Int) := rfl
      have hle : l.name.length ≤ MAX_FIELD := by
        rw [← hc]
        exact le_trans (List.length_filter_le _ _) hmax
      rw [this, renderAll_ruleLine_length _ hle, hc]

/-- C9, witness: the schema `(id Integer, name String)`, held in an array
whose other 38 entries are zero, with the field list `name`. -/
theorem header_row_length_witness :
    ∃ (r : HeaderResult) (rule row : List Char),
      printTableHeader
        ⟨[⟨['i', 'd'], .TYPE_INTEGER⟩, ⟨['n', 'a', 'm', 'e'], .TYPE_STRING⟩],
          List.replicate 38 ⟨[], .TYPE_UNKNOWN⟩⟩
        (some ⟨[['n', 'a', 'm', 'e']]⟩) = some r ∧
      renderAll r.out = rule ++ ['\n'] ++ row ++ ['\n'] ++ rule ++ ['\n'] ∧
      row.length = 13 ∧ rule.length = 13 := by
  obtain ⟨r, rule, row, h1, h2, _, _, h5, h6⟩ := header_row_length
    ⟨[⟨['i', 'd'], .TYPE_INTEGER⟩, ⟨['n', 'a', 'm', 'e'], .TYPE_STRING⟩],
      List.replicate 38 ⟨[], .TYPE_UNKNOWN⟩⟩
    (some ⟨[['n', 'a', 'm', 'e']]⟩) (by decide) (by decide) (by decide) (by decide)
    (by intro l hl; cases hl; decide)
  exact ⟨r, rule, row, h1, h2, h5, h6⟩

/-! ## Decoding the fields of a record -/

theorem toSigned8_range (b : Byte) : -128 ≤ toSigned8 b ∧ toSigned8 b ≤ 127 := by
  unfold toSigned8
  have := b.isLt
  split <;> constructor <;> omega

theorem fieldBody_integer (page : Page) (f : FieldInfo) (s : RowState)
    (hf : f.dataType = .TYPE_INTEGER) :
    fieldBody page f s
      = (readInt page s.q).bind (fun _ => (readByte page s.q).bind (fun c =>
          some (.next ⟨s.q + 4, s.out ++ [.cellD (toSigned8 c)]⟩))) := by
  simp [fieldBody, hf]

theorem fieldBody_string (page : Page) (f : FieldInfo) (s : RowState)
    (hf : f.dataType = .TYPE_STRING) :
    fieldBody page f s
      = (readInt page s.q).bind (fun stringLen => (strcpy page (s.q + 4)).bind
          (fun stringValue => some (.next ⟨s.q + 4 + wrap32 (stringLen + 1),
            s.out ++ [.cellS (stringValue.map byteChar)]⟩))) := by
  simp [fieldBody, hf]

theorem forEach_take_succ {α σ : Type} (body : α → σ → Option (Flow σ)) (l : List α)
    (k : Nat) (a : α) (h : l[k]? = some a) (s : σ) :
    forEach body (l.take (k + 1)) s = andThen (forEach body (l.take k) s) (body a) := by
  have ht : l.take (k + 1) = l.take k ++ [a] := by
    rw [List.take_succ, h]; rfl
  rw [ht, forEach_append]
  congr 1
  funext t
  simp only [forEach]
  rcases body a t with _ | ⟨u | u⟩ <;> rfl

/-- C3: for an Integer field of a record that `printTableData` displays (field
`k` of the schema, reached at position `q` after the fields before it, its
four bytes in the page holding the value `intValue` with first byte `b`), the
number in the cell is `b` read as a signed 8-bit `char`, not `intValue`; it
lies in `[-128, 127]`, the next field is decoded from `q + 4`, and a page that
holds the same byte at `q` gives the same cell whatever its bytes at
`q+1 .. q+3` are. -/
theorem integer_cell_is_first_byte (page : Page) (fields : List FieldInfo) (k : Nat)
    (f : FieldInfo) (s0 s : RowState) (b : Byte) (intValue : Int)
    (hk : fields[k]? = some f) (hf : f.dataType = .TYPE_INTEGER)
    (hpre : forEach (fieldBody page) (fields.take k) s0 = some (.next s))
    (hb : readByte page s.q = some b) (hstored : readInt page s.q = some intValue) :
    forEach (fieldBody page) (fields.take (k + 1)) s0
      = some (.next ⟨s.q + 4, s.out ++ [.cellD (toSigned8 b)]⟩) ∧
    -128 ≤ toSigned8 b ∧ toSigned8 b ≤ 127 ∧
    ∀ page2 : Page, readByte page2 s.q = some b → (readInt page2 s.q).isSome →
      fieldBody page2 f s = some (.next ⟨s.q + 4, s.out ++ [.cellD (toSigned8 b)]⟩) := by
  refine ⟨?_, (toSigned8_range b).1, (toSigned8_range b).2, ?_⟩
  · rw [forEach_take_succ _ _ _ _ hk, hpre, andThen_some_next, fieldBody_integer _ _ _ hf,
      hstored, hb]
    rfl
  · intro page2 h1 h2
    obtain ⟨w, hw⟩ := Option.isSome_iff_exists.mp h2
    rw [fieldBody_integer _ _ _ hf, hw, h1]
    rfl

/-- C3, witness: the record `(300)` of the schema `(n Integer)`, stored as the
bytes `2C 01 00 00`; the cell shows `44`. -/
theorem integer_cell_is_first_byte_witness :
    readInt [0x2C, 0x01, 0, 0] 0 = some 300 ∧
    forEach (fieldBody [0x2C, 0x01, 0, 0]) ([⟨['n'], .TYPE_INTEGER⟩].take (0 + 1)) ⟨0, [.bar]⟩
      = some (.next ⟨0 + 4, [.bar] ++ [.cellD (toSigned8 0x2C)]⟩) ∧
    toSigned8 0x2C = 44 :=
  ⟨by decide,
   (integer_cell_is_first_byte [0x2C, 0x01, 0, 0] [⟨['n'], .TYPE_INTEGER⟩] 0
      ⟨['n'], .TYPE_INTEGER⟩ ⟨0, [.bar]⟩ ⟨0, [.bar]⟩ 0x2C 300
      (by decide) (by decide) (by decide) (by decide) (by decide)).1,
   by decide⟩

theorem cstr_terminated (str tail : List Byte) (hnz : ∀ b ∈ str, b ≠ 0) :
    cstr (str ++ [0] ++ tail) = some str := by
  induction str with
  | nil => simp [cstr]
  | cons b bs ih =>
    have hb : b ≠ 0 := hnz b (List.mem_cons_self _ _)
    have := ih (fun c hc => hnz c (List.mem_cons_of_mem _ hc))
    simp only [List.append_assoc, List.singleton_append, List.cons_append,
      List.nil_append] at this ⊢
    simp [cstr, hb, this]

/-- C2 (amended): a String field whose payload at the field's position `q` is
a 4-byte length prefix `L`, then `L` bytes other than NUL, then a NUL, with
`L + 1 ≤ MAX_STRING` (the string and its NUL fit `stringValue`), is displayed
as exactly those `L` bytes, and the next field is decoded from `q + 4 + L + 1`;
after an Integer field that is decoded the next field is decoded from
`q + 4`. -/
theorem field_positions (page : Page) (f : FieldInfo) (s : RowState) :
    (f.dataType = .TYPE_STRING →
      ∀ (L : Nat) (str tail : List Byte),
        0 ≤ s.q → readInt page s.q = some (L : Int) →
        page.drop (s.q + 4).toNat = str ++ [0] ++ tail →
        str.length = L → (∀ b ∈ str, b ≠ 0) → L + 1 ≤ MAX_STRING →
        fieldBody page f s
          = some (.next ⟨s.q + (4 + L + 1), s.out ++ [.cellS (str.map byteChar)]⟩)) ∧
    (f.dataType = .TYPE_INTEGER →
      ∀ r, fieldBody page f s = some r → ∃ cell, r = .next ⟨s.q + 4, s.out ++ [cell]⟩) := by
  constructor
  · intro hf L str tail hq hL hpay hlen hnz hmax
    have hcpy : strcpy page (s.q + 4) = some str := by
      unfold strcpy
      rw [if_neg (by omega), hpay, cstr_terminated str tail hnz]
      simp only [hlen, hmax, if_true]
    have hw : wrap32 ((L : Int) + 1) = (L : Int) + 1 := by
      have : L + 1 ≤ 255 := hmax
      rw [wrap32_of_range] <;> omega
    have hq2 : s.q + 4 + ((L : Int) + 1) = s.q + (4 + L + 1) := by ring
    rw [fieldBody_string _ _ _ hf, hL, hcpy]
    simp only [Option.some_bind, hw, hq2]
  · intro hf r hr
    rw [fieldBody_integer _ _ _ hf] at hr
    rcases hi : readInt page s.q with _ | v
    · simp [hi] at hr
    rcases hb : readByte page s.q with _ | b
    · simp [hi, hb] at hr
    simp only [hi, hb, Option.some_bind, Option.some.injEq] at hr
    exact ⟨_, hr.symm⟩

/-- C2, witness: the record `("ab", 7)` of the schema `(s String, n Integer)`,
stored from byte 0 of a buffer. -/
theorem field_positions_witness :
    fieldBody [2, 0, 0, 0, 97, 98, 0, 7, 0, 0, 0] ⟨['s'], .TYPE_STRING⟩ ⟨0, []⟩
      = some (.next ⟨0 + (4 + (2 : Nat) + 1), [] ++ [.cellS ([97, 98].map byteChar)]⟩) ∧
    ∃ cell, (Flow.next ⟨11, [Printf.cellS ['a', 'b'], Printf.cellD 7]⟩ : Flow RowState)
      = .next ⟨7 + 4, [Printf.cellS ['a', 'b']] ++ [cell]⟩ :=
  ⟨(field_positions [2, 0, 0, 0, 97, 98, 0, 7, 0, 0, 0] ⟨['s'], .TYPE_STRING⟩ ⟨0, []⟩).1
      rfl 2 [97, 98] [7, 0, 0, 0] (by decide) (by decide) (by decide) (by decide)
      (by intro b hb; simp only [List.mem_cons, List.mem_singleton, List.not_mem_nil,
            or_false] at hb
          rcases hb with rfl | rfl <;> decide)
      (by decide),
   (field_positions [2, 0, 0, 0, 97, 98, 0, 7, 0, 0, 0] ⟨['n'], .TYPE_INTEGER⟩
      ⟨7, [Printf.cellS ['a', 'b']]⟩).2 rfl _ (by decide)⟩

/-- C2 as stated fails: in `longStringPage` the String field of the used slot
is a length prefix `L = 255`, then 255 bytes other than NUL, then a NUL.
`strcpy` then copies 256 bytes into `char stringValue[MAX_STRING]`, which
holds 255: the behaviour is undefined and no string is displayed by the
model. -/
theorem string_field_overflow :
    longStringPage.length = PAGE_SIZE ∧
    readSlot longStringPage 4 = some ⟨1, 13, 260⟩ ∧
    readInt longStringPage 13 = some 255 ∧
    longStringPage.drop 17 = List.replicate 255 65 ++ ([0] ++ List.replicate 3823 0) ∧
    (∀ b ∈ List.replicate 255 (65 : Byte), b ≠ 0) ∧
    strcpy longStringPage (13 + 4) = none ∧
    fieldBody longStringPage ⟨['s'], .TYPE_STRING⟩ ⟨13, [.bar]⟩ = none ∧
    printTableData (some ⟨[⟨['s'], .TYPE_STRING⟩], []⟩) [longStringPage] = none := by
  refine ⟨by decide!, by decide!, by decide!, rfl, ?_, by decide!, by decide!, by decide!⟩
  intro b hb
  rw [List.eq_of_mem_replicate hb]
  decide

/-! ## The slot directory -/

theorem slotBody_next_p (ti : TableInfo) (freed : Bool) (page : Page) (s t : SlotState)
    (h : slotBody ti freed page s = some (.next t)) : t.p = s.p + 9 := by
  unfold slotBody at h
  rcases hs : readSlot page s.p with _ | slot
  · simp [hs] at h
  simp only [hs, Option.bind_eq_bind, Option.some_bind] at h
  by_cases hflag : slot.flag = 1
  · simp only [hflag, if_true] at h
    cases freed
    · simp only [Bool.false_eq_true, if_false] at h
      rcases hf : forEach (fieldBody page) ti.fieldInfo ⟨slot.offset, s.out ++ [.bar]⟩
        with _ | ⟨r | r⟩
      · simp [hf] at h
      · simp only [hf, Option.some_bind, Option.some.injEq, Flow.next.injEq] at h
        rw [← h]
      · simp [hf] at h
    · simp at h
  · simp only [hflag, if_false, Option.some.injEq, Flow.next.injEq] at h
    rw [← h]

theorem iter_slotBody_p (ti : TableInfo) (freed : Bool) (page : Page) (j : Nat)
    (s0 s : SlotState) (h : iter (slotBody ti freed page) j s0 = some (.next s)) :
    s.p = s0.p + 9 * j := by
  induction j generalizing s with
  | zero =>
    simp only [iter, Option.some.injEq, Flow.next.injEq] at h
    subst h; simp
  | succ j ih =>
    rw [iter_succ_last] at h
    rcases hj : iter (slotBody ti freed page) j s0 with _ | ⟨t | t⟩
    · simp [hj, andThen] at h
    · rw [hj, andThen_some_next] at h
      rw [slotBody_next_p ti freed page t s h, ih t hj]
      push_cast; ring
    · simp [hj, andThen] at h

/-! ## The scan of a well-formed file -/

theorem wrap32_succ (x : Int) : wrap32 (wrap32 x + 1) = wrap32 (x + 1) := by
  unfold wrap32; omega

theorem countUp_add (a b : Nat) (x : Int) : countUp (a + b) x = countUp b (countUp a x) := by
  induction a generalizing x with
  | zero => simp [countUp]
  | succ a ih => rw [Nat.add_right_comm]; simp only [countUp]; exact ih _

theorem countUp_wrap32 (n : Nat) (x : Int) : countUp n (wrap32 x) = wrap32 (x + n) := by
  induction n generalizing x with
  | zero => simp [countUp]
  | succ n ih =>
    simp only [countUp, wrap32_succ, ih]
    congr 1; push_cast; ring

theorem countUp_zero (n : Nat) : countUp n 0 = wrap32 n := by
  have h := countUp_wrap32 n 0
  have h0 : wrap32 0 = 0 := by decide
  rw [h0] at h
  simpa using h

theorem fieldBody_frame (page : Page) (f : FieldInfo) (q : Int) (pre o : List Printf)
    (t : RowState) (h : fieldBody page f ⟨q, o⟩ = some (.next t)) :
    fieldBody page f ⟨q, pre ++ o⟩ = some (.next ⟨t.q, pre ++ t.out⟩) := by
  rcases hd : f.dataType with _ | _ | _ | _
  · simp [fieldBody, hd] at h
  · rw [fieldBody_integer _ _ _ hd] at h ⊢
    rcases hi : readInt page q with _ | v
    · simp [hi] at h
    rcases hb : readByte page q with _ | b
    · simp [hi, hb] at h
    simp only [hi, hb, Option.some_bind, Option.some.injEq, Flow.next.injEq] at h ⊢
    subst h
    simp
  · simp [fieldBody, hd] at h
  · rw [fieldBody_string _ _ _ hd] at h ⊢
    rcases hi : readInt page q with _ | v
    · simp [hi] at h
    rcases hb : strcpy page (q + 4) with _ | b
    · simp [hi, hb] at h
    simp only [hi, hb, Option.some_bind, Option.some.injEq, Flow.next.injEq] at h ⊢
    subst h
    simp

theorem forEach_fieldBody_frame (page : Page) (fields : List FieldInfo) (q : Int)
    (pre o : List Printf) (r : RowState)
    (h : forEach (fieldBody page) fields ⟨q, o⟩ = some (.next r)) :
    forEach (fieldBody page) fields ⟨q, pre ++ o⟩ = some (.next ⟨r.q, pre ++ r.out⟩) := by
  induction fields generalizing q o with
  | nil =>
    simp only [forEach, Option.some.injEq, Flow.next.injEq] at h ⊢
    subst h; rfl
  | cons f fs ih =>
    simp only [forEach] at h ⊢
    rcases hb : fieldBody page f ⟨q, o⟩ with _ | ⟨t | t⟩
    · simp [hb, andThen] at h
    · rw [hb, andThen_some_next] at h
      rw [fieldBody_frame page f q pre o t hb, andThen_some_next]
      exact ih _ _ h
    · simp [hb, andThen] at h

theorem rowOf_eq_some (ti : TableInfo) (page : Page) (slot : RecordSlot) (row : List Printf)
    (h : rowOf ti page slot = some row) :
    ∃ r, forEach (fieldBody page) ti.fieldInfo ⟨slot.offset, [.bar]⟩ = some (.next r) ∧
      row = r.out ++ [.newline] := by
  unfold rowOf at h
  rcases hf : forEach (fieldBody page) ti.fieldInfo ⟨slot.offset, [.bar]⟩ with _ | ⟨r | r⟩
  · simp [hf] at h
  · simp only [hf, Option.some.injEq] at h
    exact ⟨r, rfl, h.symm⟩
  · simp [hf] at h

theorem pageOk_slot (ti : TableInfo) (page : Page) (hok : pageOk ti page = true) (j : Nat)
    (hj : j < slotCount page) :
    ∃ slot, slotAt page j = some slot ∧
      (slot.flag = 1 → ∃ row, rowOf ti page slot = some row) := by
  unfold pageOk at hok
  rw [Bool.and_eq_true, List.all_eq_true] at hok
  have h := hok.2 j (List.mem_range.mpr hj)
  rcases hs : slotAt page j with _ | slot
  · simp [hs] at h
  · refine ⟨slot, rfl, ?_⟩
    intro hflag
    simp only [hs, hflag, decide_True, Bool.not_true, Bool.false_or] at h
    exact Option.isSome_iff_exists.mp h

theorem usedSlotsUpTo_succ (page : Page) (j : Nat) (slot : RecordSlot)
    (hs : slotAt page j = some slot) :
    usedSlotsUpTo page (j + 1)
      = usedSlotsUpTo page j ++ (if slot.flag = 1 then [slot] else []) := by
  unfold usedSlotsUpTo
  rw [List.range_succ, List.filterMap_append, List.filter_append]
  congr 1
  simp only [List.filterMap_cons, List.filterMap_nil, hs]
  by_cases h : slot.flag = 1 <;> simp [h]

theorem iter_slotBody_valid (ti : TableInfo) (page : Page) (hok : pageOk ti page = true)
    (j : Nat) (hj : j ≤ slotCount page) (nr : Int) (out : List Printf) :
    iter (slotBody ti false page) j ⟨4, nr, out⟩
      = some (.next ⟨4 + 9 * j, countUp (usedSlotsUpTo page j).length nr,
          out ++ ((usedSlotsUpTo page j).filterMap (rowOf ti page)).flatten⟩) := by
  induction j with
  | zero => simp [iter, usedSlotsUpTo, countUp]
  | succ j ih =>
    obtain ⟨slot, hs, hrow⟩ := pageOk_slot ti page hok j (by omega)
    have hs2 : readSlot page (4 + 9 * (j : Int)) = some slot := hs
    rw [iter_succ_last, ih (by omega), andThen_some_next, usedSlotsUpTo_succ page j slot hs]
    unfold slotBody
    simp only [hs2, Option.bind_eq_bind, Option.some_bind]
    have hp : (4 : Int) + 9 * j + 9 = 4 + 9 * ((j + 1 : Nat) : Int) := by push_cast; ring
    by_cases hflag : slot.flag = 1
    · obtain ⟨row, hr⟩ := hrow hflag
      obtain ⟨r, hf, hrow2⟩ := rowOf_eq_some ti page slot row hr
      have hframe := forEach_fieldBody_frame page ti.fieldInfo slot.offset
        (out ++ ((usedSlotsUpTo page j).filterMap (rowOf ti page)).flatten) [.bar] r hf
      simp only [hflag, if_true, Bool.false_eq_true, if_false, hframe, Option.some_bind,
        List.filterMap_append, List.filterMap_cons, List.filterMap_nil, hr, List.flatten_append,
        List.length_append, List.length_singleton, countUp_add, hp, hrow2]
      simp [countUp, List.flatten]
    · simp only [hflag, if_false, List.append_nil, hp]

theorem slotBody_at_slot (ti : TableInfo) (freed : Bool) (page : Page) (cnt : Int)
    (j : Nat) (numRecord : Int) (out : List Printf)
    (hcnt : readInt page 0 = some cnt) (hj : (j : Int) < cnt) :
    (∀ s, iter (slotBody ti freed page) j ⟨4, numRecord, out⟩ = some (.next s) →
      s.p = 4 + 9 * j ∧
      readSlot page s.p = (do
        let flag ← readByte page (4 + 9 * j)
        let offset ← readInt page (5 + 9 * j)
        let size ← readInt page (9 + 9 * j)
        some ⟨toSigned8 flag, offset, size⟩) ∧
      (∀ slot, readSlot page s.p = some slot → slot.flag = 1 → freed = false →
        slotBody ti freed page s =
          match forEach (fieldBody page) ti.fieldInfo ⟨slot.offset, s.out ++ [.bar]⟩ with
          | none => none
          | some (.ret r) => some (.ret ⟨s.p, wrap32 (s.numRecord + 1), r.out⟩)
          | some (.next r) =>
            some (.next ⟨s.p + 9, wrap32 (s.numRecord + 1), r.out ++ [.newline]⟩)) ∧
      (∀ slot, readSlot page s.p = some slot → slot.flag ≠ 1 →
        slotBody ti freed page s = some (.next ⟨s.p + 9, s.numRecord, s.out⟩)) ∧
      pageBody ti freed page ⟨numRecord, out⟩
        = match andThen (slotBody ti freed page s)
            (iter (slotBody ti freed page) (cnt.toNat - (j + 1))) with
          | none => none
          | some (.ret r) => some (.ret ⟨r.numRecord, r.out⟩)
          | some (.next r) => some (.next ⟨r.numRecord, r.out⟩)) ∧
    (pageOk ti page = true → freed = false →
      ∃ s, iter (slotBody ti freed page) j ⟨4, numRecord, out⟩ = some (.next s)) := by
  constructor
  · intro s hreach
    have hp : s.p = 4 + 9 * j := by
      have := iter_slotBody_p ti freed page j _ s hreach
      simpa using this
    refine ⟨hp, ?_, ?_, ?_, ?_⟩
    · rw [hp]
      unfold readSlot
      have e1 : (4 : Int) + 9 * j + 1 = 5 + 9 * j := by ring
      have e2 : (4 : Int) + 9 * j + 5 = 9 + 9 * j := by ring
      rw [e1, e2]
    · intro slot hs hflag hfreed
      subst hfreed
      unfold slotBody
      simp only [hs, Option.bind_eq_bind, Option.some_bind, hflag, if_true, Bool.false_eq_true,
        if_false]
      generalize forEach (fieldBody page) ti.fieldInfo ⟨slot.offset, s.out ++ [.bar]⟩ = x
      rcases x with _ | ⟨r | r⟩ <;> rfl
    · intro slot hs hflag
      unfold slotBody
      simp only [hs, Option.bind_eq_bind, Option.some_bind, hflag, if_false]
    · have hn : cnt.toNat = (j + 1) + (cnt.toNat - (j + 1)) := by omega
      have hi : iter (slotBody ti freed page) cnt.toNat ⟨4, numRecord, out⟩
          = andThen (slotBody ti freed page s)
              (iter (slotBody ti freed page) (cnt.toNat - (j + 1))) := by
        conv_lhs => rw [hn]
        rw [iter_add, iter_succ_last, hreach, andThen_some_next]
      unfold pageBody
      simp only [hcnt, Option.bind_eq_bind, Option.some_bind, hi]
      generalize andThen (slotBody ti freed page s)
        (iter (slotBody ti freed page) (cnt.toNat - (j + 1))) = x
      rcases x with _ | ⟨r | r⟩ <;> rfl
  · intro hok hfreed
    subst hfreed
    have hc : slotCount page = cnt.toNat := by simp [slotCount, hcnt]
    exact ⟨_, iter_slotBody_valid ti page hok j (by omega) numRecord out⟩

theorem readSlot_eq_some (page : Page) (p : Int) (slot : RecordSlot)
    (h : readSlot page p = some slot) :
    ∃ (flag : Byte) (offset size : Int), readByte page p = some flag ∧
      readInt page (p + 1) = some offset ∧ readInt page (p + 5) = some size ∧
      slot = ⟨toSigned8 flag, offset, size⟩ := by
  unfold readSlot at h
  rcases hf : readByte page p with _ | flag
  · simp [hf] at h
  rcases ho : readInt page (p + 1) with _ | offset
  · simp [hf, ho] at h
  rcases hz : readInt page (p + 5) with _ | size
  · simp [hf, ho, hz] at h
  simp only [hf, ho, hz, Option.bind_eq_bind, Option.some_bind, Option.some.injEq] at h
  exact ⟨flag, offset, size, rfl, rfl, rfl, h.symm⟩

/-- C1 (amended): for a table whose schema fields are all of type Integer or
String (so that `printTableHeader` leaves the `TableInfo` in place) and a
well-formed page whose slot count (the `int` at bytes 0..3) is `cnt`, the scan
of `printTableData` reaches every slot `j < cnt` with `p` at byte `4 + 9*j`: it
reads the flag at `4 + 9*j`, the payload offset at `5 + 9*j` and the size at
`9 + 9*j`.  Iteration `j` decodes the record of a used slot from page byte
`offset` and skips any other slot, and the scan of the page continues from the
state this iteration leaves with the `cnt - j - 1` iterations after it. -/
theorem slot_entry_address (ti : TableInfo) (page : Page) (cnt : Int)
    (j : Nat) (numRecord : Int) (out : List Printf)
    (hty : ∀ f ∈ ti.fieldInfo, f.dataType = .TYPE_INTEGER ∨ f.dataType = .TYPE_STRING)
    (hok : pageOk ti page = true)
    (hcnt : readInt page 0 = some cnt) (hj : (j : Int) < cnt) :
    (printTableHeader ti none).map (fun h => h.freed) = some false ∧
    ∃ (s : SlotState) (flag : Byte) (offset size : Int),
      iter (slotBody ti false page) j ⟨4, numRecord, out⟩ = some (.next s) ∧
      s.p = 4 + 9 * j ∧
      readByte page (4 + 9 * j) = some flag ∧
      readInt page (5 + 9 * j) = some offset ∧
      readInt page (9 + 9 * j) = some size ∧
      readSlot page s.p = some ⟨toSigned8 flag, offset, size⟩ ∧
      (toSigned8 flag = 1 →
        ∃ r, forEach (fieldBody page) ti.fieldInfo ⟨offset, s.out ++ [.bar]⟩ = some (.next r) ∧
          slotBody ti false page s
            = some (.next ⟨s.p + 9, wrap32 (s.numRecord + 1), r.out ++ [.newline]⟩)) ∧
      (toSigned8 flag ≠ 1 →
        slotBody ti false page s = some (.next ⟨s.p + 9, s.numRecord, s.out⟩)) ∧
      pageBody ti false page ⟨numRecord, out⟩
        = match andThen (slotBody ti false page s)
            (iter (slotBody ti false page) (cnt.toNat - (j + 1))) with
          | none => none
          | some (.ret r) => some (.ret ⟨r.numRecord, r.out⟩)
          | some (.next r) => some (.next ⟨r.numRecord, r.out⟩) := by
  constructor
  · rw [printTableHeader_printable ti none hty]
    rfl
  have hc : slotCount page = cnt.toNat := by simp [slotCount, hcnt]
  have hreach := iter_slotBody_valid ti page hok j (by omega) numRecord out
  obtain ⟨slot, hs, hrow⟩ := pageOk_slot ti page hok j (by omega)
  obtain ⟨flag, offset, size, hf, ho, hz, hslot⟩ := readSlot_eq_some page _ slot hs
  have e1 : (4 : Int) + 9 * j + 1 = 5 + 9 * j := by ring
  have e2 : (4 : Int) + 9 * j + 5 = 9 + 9 * j := by ring
  rw [e1] at ho
  rw [e2] at hz
  have hstep := (slotBody_at_slot ti false page cnt j numRecord out hcnt hj).1 _ hreach
  have hs2 : readSlot page (4 + 9 * (j : Int)) = some ⟨toSigned8 flag, offset, size⟩ := by
    rw [← hslot]; exact hs
  refine ⟨_, flag, offset, size, hreach, rfl, hf, ho, hz, hs2, ?_, ?_, hstep.2.2.2.2⟩
  · intro hflag
    obtain ⟨row, hr⟩ := hrow (by rw [hslot]; exact hflag)
    obtain ⟨r, hfe, _⟩ := rowOf_eq_some ti page slot row hr
    have hoff : slot.offset = offset := by rw [hslot]
    rw [hoff] at hfe
    have hframe := forEach_fieldBody_frame page ti.fieldInfo offset
      (out ++ ((usedSlotsUpTo page j).filterMap (rowOf ti page)).flatten) [.bar] r hfe
    refine ⟨_, hframe, ?_⟩
    rw [hstep.2.2.1 _ hs2 hflag rfl]
    dsimp only
    rw [hframe]
  · intro hflag
    exact hstep.2.2.2.1 _ hs2 hflag

/-- C1, witness: a page of two slots, the first free, the second used with
the record `(7)` at offset 22, padded to 4096 bytes; the scan reaches slot 1
with `p` at byte 13 and reads the entry `(1, 22, 4)` there. -/
theorem slot_entry_address_witness :
    ∃ (s : SlotState) (flag : Byte) (offset size : Int),
      iter (slotBody ⟨[⟨['n'], .TYPE_INTEGER⟩], []⟩ false
        ([2, 0, 0, 0, 0, 0, 0, 0, 0, 0, 0, 0, 0, 1, 22, 0, 0, 0, 4, 0, 0, 0, 7, 0, 0, 0]
          ++ List.replicate 4070 0)) 1 ⟨4, 0, []⟩ = some (.next s) ∧
      s.p = 4 + 9 * ((1 : Nat) : Int) ∧
      readByte ([2, 0, 0, 0, 0, 0, 0, 0, 0, 0, 0, 0, 0, 1, 22, 0, 0, 0, 4, 0, 0, 0, 7, 0, 0, 0]
          ++ List.replicate 4070 0) (4 + 9 * ((1 : Nat) : Int)) = some flag ∧
      readInt ([2, 0, 0, 0, 0, 0, 0, 0, 0, 0, 0, 0, 0, 1, 22, 0, 0, 0, 4, 0, 0, 0, 7, 0, 0, 0]
          ++ List.replicate 4070 0) (5 + 9 * ((1 : Nat) : Int)) = some offset ∧
      readInt ([2, 0, 0, 0, 0, 0, 0, 0, 0, 0, 0, 0, 0, 1, 22, 0, 0, 0, 4, 0, 0, 0, 7, 0, 0, 0]
          ++ List.replicate 4070 0) (9 + 9 * ((1 : Nat) : Int)) = some size ∧
      readSlot ([2, 0, 0, 0, 0, 0, 0, 0, 0, 0, 0, 0, 0, 1, 22, 0, 0, 0, 4, 0, 0, 0, 7, 0, 0, 0]
          ++ List.replicate 4070 0) s.p = some ⟨toSigned8 flag, offset, size⟩ :=
  have h := (slot_entry_address ⟨[⟨['n'], .TYPE_INTEGER⟩], []⟩
    ([2, 0, 0, 0, 0, 0, 0, 0, 0, 0, 0, 0, 0, 1, 22, 0, 0, 0, 4, 0, 0, 0, 7, 0, 0, 0]
      ++ List.replicate 4070 0)
    2 1 0 [] (by decide) (by decide!) (by decide!) (by decide)).2
  match h with
  | ⟨s, flag, offset, size, h1, h2, h3, h4, h5, h6, _⟩ =>
    ⟨s, flag, offset, size, h1, h2, h3, h4, h5, h6⟩

theorem overfullPage_byte (q : Int) (h4 : 4 ≤ q) (h : q < 4096) :
    readByte overfullPage q = some 0 := by
  obtain ⟨i, rfl⟩ : ∃ i : Nat, q = ((i + 4 : Nat) : Int) := ⟨(q - 4).toNat, by omega⟩
  have hi : i < 4092 := by omega
  unfold readByte overfullPage
  rw [if_neg (by omega), Int.toNat_ofNat,
    List.getElem?_append_right (by simp), List.getElem?_replicate]
  simp [hi]

theorem overfullPage_int (q : Int) (h4 : 4 ≤ q) (h : q + 3 < 4096) :
    readInt overfullPage q = some 0 := by
  unfold readInt
  rw [overfullPage_byte q h4 (by omega), overfullPage_byte (q + 1) (by omega) (by omega),
    overfullPage_byte (q + 2) (by omega) (by omega),
    overfullPage_byte (q + 3) (by omega) (by omega)]
  decide

theorem overfullPage_slot (ti : TableInfo) (s : SlotState) (h4 : 4 ≤ s.p)
    (h : s.p + 8 < 4096) :
    slotBody ti false overfullPage s = some (.next ⟨s.p + 9, s.numRecord, s.out⟩) := by
  have hs : readSlot overfullPage s.p = some ⟨0, 0, 0⟩ := by
    unfold readSlot
    rw [overfullPage_byte s.p h4 (by omega), overfullPage_int (s.p + 1) (by omega) (by omega),
      overfullPage_int (s.p + 5) (by omega) (by omega)]
    decide
  unfold slotBody
  rw [hs]
  rfl

theorem overfullPage_iter (ti : TableInfo) (j : Nat) (hj : j ≤ 454) (numRecord : Int)
    (out : List Printf) :
    iter (slotBody ti false overfullPage) j ⟨4, numRecord, out⟩
      = some (.next ⟨4 + 9 * j, numRecord, out⟩) := by
  induction j with
  | zero => simp [iter]
  | succ j ih =>
    rw [iter_succ_last, ih (by omega), andThen_some_next,
      overfullPage_slot ti _ (by show (4 : Int) ≤ 4 + 9 * j; omega)
        (by show (4 : Int) + 9 * j + 8 < 4096; omega)]
    have e : (4 : Int) + 9 * j + 9 = 4 + 9 * ((j + 1 : Nat) : Int) := by push_cast; ring
    simp only [e]

theorem slotBody_none (ti : TableInfo) (freed : Bool) (page : Page) (s : SlotState)
    (h : readSlot page s.p = none) : slotBody ti freed page s = none := by
  unfold slotBody
  rw [h]
  rfl

theorem pageBody_none (ti : TableInfo) (freed : Bool) (page : Page) (cnt : Int)
    (numRecord : Int) (out : List Printf) (hcnt : readInt page 0 = some cnt)
    (h : iter (slotBody ti freed page) cnt.toNat ⟨4, numRecord, out⟩ = none) :
    pageBody ti freed page ⟨numRecord, out⟩ = none := by
  unfold pageBody
  simp only [hcnt, Option.bind_eq_bind, Option.some_bind, h, Option.none_bind]

theorem printTableData_none (ti : TableInfo) (page : Page)
    (hty : ∀ f ∈ ti.fieldInfo, f.printable)
    (h : ∀ out, pageBody ti false page ⟨0, out⟩ = none) :
    printTableData (some ti) [page] = none := by
  have hh := printTableHeader_printable ti none hty
  unfold printTableData
  simp only [hh, Option.bind_eq_bind, Option.some_bind]
  rw [forEach, h]
  rfl

/-- C1 as stated fails.  In `overfullPage` the slot count is 455 and the scan
reaches slot 454 with `p` at byte 4090, but the size field of that entry would
lie at bytes 4095 to 4098, past the end of `char page[PAGE_SIZE]`: the read is
not a read of the page.  In the table `(x Double)` with the page `twoRowPage`,
`printTableHeader` releases the `TableInfo`, the scan has no defined behaviour
at the used slot 0 (the code reads `tableInfo->numField` there and returns in
the `default` branch), and slot 1 is never read. -/
theorem slot_entry_outside_page :
    overfullPage.length = PAGE_SIZE ∧
    readInt overfullPage 0 = some 455 ∧
    iter (slotBody ⟨[⟨['n'], .TYPE_INTEGER⟩], []⟩ false overfullPage) 454 ⟨4, 0, []⟩
      = some (.next ⟨4 + 9 * 454, 0, []⟩) ∧
    readInt overfullPage (9 + 9 * 454) = none ∧
    readSlot overfullPage (4 + 9 * 454) = none ∧
    printTableData (some ⟨[⟨['n'], .TYPE_INTEGER⟩], []⟩) [overfullPage] = none ∧
    readInt twoRowPage 0 = some 2 ∧
    (printTableHeader ⟨[⟨['x'], .TYPE_DOUBLE⟩], []⟩ none).map (fun h => h.freed) = some true ∧
    iter (slotBody ⟨[⟨['x'], .TYPE_DOUBLE⟩], []⟩ true twoRowPage) 1 ⟨4, 0, []⟩ = none ∧
    printTableData (some ⟨[⟨['x'], .TYPE_DOUBLE⟩], []⟩) [twoRowPage] = none := by
  have h0 : readInt overfullPage 0 = some 455 := by decide!
  have hslot : readSlot overfullPage (4 + 9 * 454) = none := by decide!
  have hiter := fun (nr : Int) (o : List Printf) =>
    overfullPage_iter ⟨[⟨['n'], .TYPE_INTEGER⟩], []⟩ 454 (le_refl _) nr o
  have hlast : ∀ o, iter (slotBody ⟨[⟨['n'], .TYPE_INTEGER⟩], []⟩ false overfullPage)
      (455 : Int).toNat ⟨4, 0, o⟩ = none := by
    intro o
    show iter (slotBody ⟨[⟨['n'], .TYPE_INTEGER⟩], []⟩ false overfullPage) (454 + 1)
      ⟨4, 0, o⟩ = none
    rw [iter_succ_last, hiter, andThen_some_next]
    exact slotBody_none _ _ _ _ hslot
  refine ⟨by decide!, h0, hiter 0 [], by decide!, hslot, ?_, by decide!, by decide!,
    by decide!, by decide!⟩
  exact printTableData_none _ _ (by decide)
    (fun o => pageBody_none _ _ _ 455 _ _ h0 (hlast o))

theorem pageBody_valid (ti : TableInfo) (page : Page) (hok : pageOk ti page = true)
    (nr : Int) (out : List Printf) :
    pageBody ti false page ⟨nr, out⟩
      = some (.next ⟨countUp (usedSlots page).length nr,
          out ++ (pageRows ti page).flatten⟩) := by
  have hsome : (readInt page 0).isSome = true := by
    unfold pageOk at hok
    rw [Bool.and_eq_true] at hok
    exact hok.1
  obtain ⟨cnt, hcnt⟩ := Option.isSome_iff_exists.mp hsome
  have hc : slotCount page = cnt.toNat := by simp [slotCount, hcnt]
  unfold pageBody
  simp only [hcnt, Option.bind_eq_bind, Option.some_bind]
  rw [← hc, iter_slotBody_valid ti page hok (slotCount page) (le_refl _)]
  rfl

theorem forEach_pageBody_valid (ti : TableInfo) (file : List Page)
    (hok : ∀ page ∈ file, pageOk ti page = true) (nr : Int) (out : List Printf) :
    forEach (pageBody ti false) file ⟨nr, out⟩
      = some (.next ⟨countUp (usedCount file) nr,
          out ++ (file.flatMap (pageRows ti)).flatten⟩) := by
  induction file generalizing nr out with
  | nil => simp [forEach, usedCount, countUp]
  | cons page rest ih =>
    rw [forEach, pageBody_valid ti page (hok page (List.mem_cons_self _ _)), andThen_some_next,
      ih (fun q hq => hok q (List.mem_cons_of_mem _ hq))]
    have hu : usedCount (page :: rest) = (usedSlots page).length + usedCount rest := by
      simp [usedCount]
    rw [hu, countUp_add]
    simp [List.flatMap_cons]

theorem printTableData_valid (ti : TableInfo) (file : List Page)
    (hty : ∀ f ∈ ti.fieldInfo, f.printable)
    (hok : ∀ page ∈ file, pageOk ti page = true) :
    printTableData (some ti) file
      = some ⟨tableHeader ti ++ (file.flatMap (pageRows ti)).flatten
          ++ (if wrap32 (usedCount file) > 0 then ruleLine ti.numField ++ [Printf.newline]
              else [])
          ++ [Printf.rowsInSet (wrap32 (usedCount file))], false, false⟩ := by
  have hh : printTableHeader ti none = some ⟨tableHeader ti, false⟩ :=
    printTableHeader_printable ti none hty
  have hp := forEach_pageBody_valid ti file hok 0 (tableHeader ti)
  rw [countUp_zero] at hp
  unfold printTableData
  simp only [hh, Option.bind_eq_bind, Option.some_bind]
  rw [insertLine_columnWidth, hp, Option.some_bind]
  by_cases hpos : wrap32 (usedCount file) > 0
  · dsimp only
    rw [if_pos hpos, if_pos hpos, if_neg (by decide), Option.some_bind]
  · dsimp only
    rw [if_neg hpos, if_neg hpos, List.append_nil]

theorem usedSlots_row (ti : TableInfo) (page : Page) (hok : pageOk ti page = true) :
    ∀ slot ∈ usedSlots page, ∃ row, rowOf ti page slot = some row := by
  intro slot hslot
  unfold usedSlots usedSlotsUpTo at hslot
  rw [List.mem_filter, List.mem_filterMap] at hslot
  obtain ⟨⟨j, hj, hs⟩, hflag⟩ := hslot
  obtain ⟨slot2, hs2, hrow⟩ := pageOk_slot ti page hok j (List.mem_range.mp hj)
  rw [hs] at hs2
  cases hs2
  exact hrow (by simpa using hflag)

theorem map_eq_filterMap_some {α β : Type} (f : α → Option β) (l : List α)
    (h : ∀ a ∈ l, ∃ b, f a = some b) : l.map f = (l.filterMap f).map some := by
  induction l with
  | nil => rfl
  | cons a l ih =>
    obtain ⟨b, hb⟩ := h a (List.mem_cons_self _ _)
    simp [List.filterMap_cons, hb, ih (fun c hc => h c (List.mem_cons_of_mem _ hc))]

theorem pageRows_length (ti : TableInfo) (page : Page) (hok : pageOk ti page = true) :
    (pageRows ti page).length = (usedSlots page).length := by
  have h := congrArg List.length
    (map_eq_filterMap_some (rowOf ti page) (usedSlots page) (usedSlots_row ti page hok))
  simp only [List.length_map] at h
  exact h.symm

theorem flatMap_pageRows_length (ti : TableInfo) (file : List Page)
    (hok : ∀ page ∈ file, pageOk ti page = true) :
    (file.flatMap (pageRows ti)).length = usedCount file := by
  induction file with
  | nil => rfl
  | cons page rest ih =>
    have hu : usedCount (page :: rest) = (usedSlots page).length + usedCount rest := by
      simp [usedCount]
    rw [List.flatMap_cons, List.length_append, hu,
      pageRows_length ti page (hok page (List.mem_cons_self _ _)),
      ih (fun q hq => hok q (List.mem_cons_of_mem _ hq))]

/-- C6 (amended): for a table whose schema fields are all of type Integer or
String and whose pages are well formed, with at most `INT_MAX` slots of flag
byte 1 over all pages, `printTableData` prints, after the header, one row for
each slot whose flag byte is 1 and no other row, in page order and within a
page in slot-directory order; the `rows in set` line reports the total number
of slots with flag byte 1, and the closing rule line stands before it when
that number is positive. -/
theorem printTableData_rows (ti : TableInfo) (file : List Page)
    (hty : ∀ f ∈ ti.fieldInfo, f.dataType = .TYPE_INTEGER ∨ f.dataType = .TYPE_STRING)
    (hok : ∀ page ∈ file, pageOk ti page = true)
    (hcount : usedCount file ≤ 2147483647) :
    ∃ r, printTableData (some ti) file = some r ∧
      r.out = tableHeader ti ++ (file.flatMap (pageRows ti)).flatten
          ++ (if 0 < usedCount file then ruleLine ti.numField ++ [Printf.newline] else [])
          ++ [Printf.rowsInSet (usedCount file)] ∧
      (∀ page ∈ file, (usedSlots page).map (rowOf ti page) = (pageRows ti page).map some) ∧
      (file.flatMap (pageRows ti)).length = usedCount file := by
  have hw : wrap32 (usedCount file) = (usedCount file : Int) := by
    rw [wrap32_of_range] <;> omega
  refine ⟨_, printTableData_valid ti file hty hok, ?_, ?_, flatMap_pageRows_length ti file hok⟩
  · simp only [hw, gt_iff_lt, Nat.cast_pos]
  · intro page hpage
    exact map_eq_filterMap_some _ _ (usedSlots_row ti page (hok page hpage))

/-- C6, witness: the table `(n Integer)` with the single page `twoRowPage`. -/
theorem printTableData_rows_witness :
    ∃ r, printTableData (some ⟨[⟨['n'], .TYPE_INTEGER⟩], []⟩) [twoRowPage] = some r ∧
      renderAll r.out = ("+-----------+\n|         n |\n+-----------+\n" ++
        "|         7 |\n|         8 |\n+-----------+\n2 rows in set\n").toList := by
  obtain ⟨r, h1, _⟩ := printTableData_rows ⟨[⟨['n'], .TYPE_INTEGER⟩], []⟩ [twoRowPage]
    (by decide)
    (by intro page hp; rw [List.mem_singleton.mp hp]; decide!)
    (by decide!)
  refine ⟨r, h1, ?_⟩
  have h2 : printTableData (some ⟨[⟨['n'], .TYPE_INTEGER⟩], []⟩) [twoRowPage]
      = some ⟨[.plus, .minus, .minus, .minus, .minus, .minus, .minus, .minus, .minus, .minus,
          .minus, .minus, .plus, .newline, .bar, .cellS ['n'], .newline,
          .plus, .minus, .minus, .minus, .minus, .minus, .minus, .minus, .minus, .minus,
          .minus, .minus, .plus, .newline,
          .bar, .cellD 7, .newline, .bar, .cellD 8, .newline,
          .plus, .minus, .minus, .minus, .minus, .minus, .minus, .minus, .minus, .minus,
          .minus, .minus, .plus, .newline, .rowsInSet 2], false, false⟩ := by decide!
  rw [h2] at h1
  rw [← Option.some.inj h1]
  decide!

theorem usedCount_replicate (page : Page) (n : Nat) :
    usedCount (List.replicate n page) = n * (usedSlots page).length := by
  induction n with
  | zero => simp [usedCount]
  | succ n ih =>
    have hu : usedCount (page :: List.replicate n page)
        = (usedSlots page).length + usedCount (List.replicate n page) := by
      simp [usedCount]
    rw [List.replicate_succ, hu, ih]
    ring

theorem printTableData_replicate (ti : TableInfo) (page : Page) (n : Nat)
    (hty : ∀ f ∈ ti.fieldInfo, f.printable) (hok : pageOk ti page = true) :
    ∃ r, printTableData (some ti) (List.replicate n page) = some r ∧
      r.out.getLast? = some (Printf.rowsInSet
        (wrap32 ((n * (usedSlots page).length : Nat) : Int))) := by
  refine ⟨_, printTableData_valid ti (List.replicate n page) hty ?_, ?_⟩
  · intro q hq
    rw [List.eq_of_mem_replicate hq]
    exact hok
  · rw [usedCount_replicate]
    exact List.getLast?_concat _

/-- C6 as stated fails: the table `(n Integer)` whose file is `2^30` copies of
`twoRowPage` has `2^31 = 2147483648` slots with flag byte 1.  The `int`
counter `numRecord` is incremented once for each and ends at `-2147483648`,
which is the number the `rows in set` line reports. -/
theorem row_count_overflow :
    twoRowPage.length = PAGE_SIZE ∧
    pageOk ⟨[⟨['n'], .TYPE_INTEGER⟩], []⟩ twoRowPage = true ∧
    usedCount (List.replicate 1073741824 twoRowPage) = 2147483648 ∧
    ∃ r, printTableData (some ⟨[⟨['n'], .TYPE_INTEGER⟩], []⟩)
        (List.replicate 1073741824 twoRowPage) = some r ∧
      r.out.getLast? = some (Printf.rowsInSet (-2147483648)) := by
  have hlen : (usedSlots twoRowPage).length = 2 := by decide!
  have hok : pageOk ⟨[⟨['n'], .TYPE_INTEGER⟩], []⟩ twoRowPage = true := by decide!
  refine ⟨by decide!, hok, ?_, ?_⟩
  · rw [usedCount_replicate, hlen]
  · obtain ⟨r, h1, h2⟩ := printTableData_replicate ⟨[⟨['n'], .TYPE_INTEGER⟩], []⟩ twoRowPage
      1073741824 (by decide) hok
    rw [hlen] at h2
    have hw : wrap32 ((1073741824 * 2 : Nat) : Int) = -2147483648 := by decide
    rw [hw] at h2
    exact ⟨r, h1, h2⟩

/-! ## `printRecordSet` -/

theorem recordFieldLoop_fits (ti : TableInfo) (ds : List FieldData) (j : Nat)
    (out : List Printf)
    (hlen : ds.length ≤ (ti.fieldInfo.drop j).length)
    (hty : ∀ f ∈ (ti.fieldInfo.drop j).take ds.length, f.printable) :
    recordFieldLoop ti false ds j out
      = some (.next (out ++ List.zipWith recordCell ds (ti.fieldInfo.drop j))) := by
  induction ds generalizing j out with
  | nil => simp [recordFieldLoop]
  | cons d ds ih =>
    have hj : j < ti.fieldInfo.length := by
      simp only [List.length_cons, List.length_drop] at hlen; omega
    have hdrop : ti.fieldInfo.drop j = ti.fieldInfo[j] :: ti.fieldInfo.drop (j + 1) :=
      List.drop_eq_getElem_cons hj
    have hget : ti.array[j]? = some ti.fieldInfo[j] := by
      unfold TableInfo.array
      rw [List.getElem?_append_left hj]
      exact List.getElem?_eq_getElem hj
    rw [hdrop] at hlen hty ⊢
    have hf : (ti.fieldInfo[j]).printable :=
      hty _ (by rw [List.length_cons, List.take_succ_cons]; exact List.mem_cons_self _ _)
    have ih2 := fun o => ih (j + 1) o
      (by simp only [List.length_cons, List.length_drop] at hlen ⊢; omega)
      (by intro f hf2; apply hty; simp only [List.length_cons, List.take_succ_cons,
            List.mem_cons]; exact Or.inr hf2)
    unfold recordFieldLoop
    simp only [Bool.false_eq_true, if_false, hget, List.zipWith_cons_cons]
    rcases hf with hf | hf
    · simp only [hf, ih2, recordCell, List.append_assoc, List.singleton_append]
    · simp only [hf, ih2, recordCell, List.append_assoc, List.singleton_append]

theorem recordBody_fits (ti : TableInfo) (r : RecordData) (next : List RecordData)
    (out : List Printf) (hfit : recordFits ti r) :
    recordBody ti false ⟨r :: next, out⟩ = some (.next ⟨next, out ++ recordRow ti r⟩) := by
  have h := recordFieldLoop_fits ti r.fieldData 0 (out ++ [.bar])
    (by simpa using hfit.1) (by simpa using hfit.2)
  unfold recordBody
  simp only [h, List.drop_zero, recordRow, List.append_assoc]

theorem iter_recordBody_fits (ti : TableInfo) (n : Nat) (records : List RecordData)
    (out : List Printf) (hlen : n ≤ records.length)
    (hfit : ∀ r ∈ records.take n, recordFits ti r) :
    iter (recordBody ti false) n ⟨records, out⟩
      = some (.next ⟨records.drop n, out ++ ((records.take n).map (recordRow ti)).flatten⟩) := by
  induction n generalizing records out with
  | zero => simp [iter]
  | succ n ih =>
    rcases records with _ | ⟨r, next⟩
    · simp at hlen
    · have hr : recordFits ti r := hfit r (by simp)
      rw [iter, recordBody_fits ti r next out hr, andThen_some_next,
        ih next _ (by simpa using hlen)
          (by intro q hq; apply hfit; simp only [List.take_succ_cons, List.mem_cons]
              exact Or.inr hq)]
      simp

theorem printRecordSet_fits (ti : TableInfo) (rs : RecordSet) (fieldList : Option FieldList)
    (hlist : rs.numRecord.toNat ≤ rs.recordData.length)
    (hfit : ∀ r ∈ rs.recordData.take rs.numRecord.toNat, recordFits ti r)
    (hhead : ∀ f ∈ ti.fieldInfo, displayed fieldList f = true → f.printable) :
    printRecordSet (some ti) rs fieldList
      = some ⟨ruleLine (ruleCount ti fieldList) ++ [Printf.newline] ++ headerRow ti fieldList
          ++ [Printf.newline] ++ ruleLine (ruleCount ti fieldList) ++ [Printf.newline]
          ++ ((rs.recordData.take rs.numRecord.toNat).map (recordRow ti)).flatten
          ++ (if rs.numRecord > 0 then ruleLine (ruleCount ti fieldList) ++ [Printf.newline]
              else [])
          ++ [Printf.rowsInSet rs.numRecord], false, false⟩ := by
  have hh := printTableHeader_displayed ti fieldList hhead
  unfold printRecordSet
  simp only [hh, Option.bind_eq_bind, Option.some_bind]
  rw [iter_recordBody_fits ti _ _ _ hlist hfit, Option.some_bind]
  by_cases hpos : rs.numRecord > 0
  · dsimp only
    rw [if_pos hpos, if_pos hpos]
    rcases fieldList with _ | l
    · dsimp only
      rw [if_neg (by decide), insertLine_columnWidth, Option.some_bind]
      rfl
    · dsimp only
      rw [insertLine_columnWidth, Option.some_bind]
      rfl
  · dsimp only
    rw [if_neg hpos, if_neg hpos, List.append_nil]

theorem zipWith_recordCell_length (ti : TableInfo) (r : RecordData) (h : recordFits ti r) :
    (List.zipWith recordCell r.fieldData ti.fieldInfo).length = r.fieldData.length := by
  rw [List.length_zipWith]
  exact Nat.min_eq_left h.1

/-- C7 (amended): for a `RecordSet` whose list holds at least `numRecord`
nodes, a table whose first `record->numField` schema fields are of type
Integer or String for each of these nodes, and a header that displays only
fields of type Integer or String (so that `printTableHeader` does not release
the `TableInfo` the rows are printed from), `printRecordSet` prints after the
header one row for each of the first `numRecord` nodes, in list order, each
with that node's `numField` cells; the `rows in set` line reports `numRecord`
and the closing rule line stands before it exactly when `numRecord > 0`. -/
theorem printRecordSet_rows (ti : TableInfo) (rs : RecordSet) (fieldList : Option FieldList)
    (hlist : rs.numRecord.toNat ≤ rs.recordData.length)
    (hfit : ∀ r ∈ rs.recordData.take rs.numRecord.toNat,
      r.fieldData.length ≤ ti.fieldInfo.length ∧
      ∀ f ∈ ti.fieldInfo.take r.fieldData.length,
        f.dataType = .TYPE_INTEGER ∨ f.dataType = .TYPE_STRING)
    (hhead : ∀ f ∈ ti.fieldInfo, displayed fieldList f = true →
      f.dataType = .TYPE_INTEGER ∨ f.dataType = .TYPE_STRING) :
    ∃ e, printRecordSet (some ti) rs fieldList = some e ∧
      e.out = ruleLine (ruleCount ti fieldList) ++ [Printf.newline] ++ headerRow ti fieldList
          ++ [Printf.newline] ++ ruleLine (ruleCount ti fieldList) ++ [Printf.newline]
          ++ ((rs.recordData.take rs.numRecord.toNat).map (fun r =>
                [Printf.bar] ++ List.zipWith recordCell r.fieldData ti.fieldInfo
                  ++ [Printf.newline])).flatten
          ++ (if rs.numRecord > 0 then ruleLine (ruleCount ti fieldList) ++ [Printf.newline]
              else [])
          ++ [Printf.rowsInSet rs.numRecord] ∧
      (rs.recordData.take rs.numRecord.toNat).length = rs.numRecord.toNat ∧
      (∀ r ∈ rs.recordData.take rs.numRecord.toNat,
        (List.zipWith recordCell r.fieldData ti.fieldInfo).length = r.fieldData.length) ∧
      e.tableInfoFreed = false ∧ e.recordSetFreed = false := by
  refine ⟨_, printRecordSet_fits ti rs fieldList hlist hfit hhead, rfl, ?_, ?_, rfl, rfl⟩
  · rw [List.length_take]; exact Nat.min_eq_left hlist
  · intro r hr
    exact zipWith_recordCell_length ti r (hfit r hr)

/-- C7, witness: two records `(1, "a")` and `(2, "b")` of the table
`(id Integer, name String)`, printed without a field list. -/
theorem printRecordSet_rows_witness :
    ∃ e, printRecordSet
          (some ⟨[⟨['i', 'd'], .TYPE_INTEGER⟩, ⟨['n', 'a', 'm', 'e'], .TYPE_STRING⟩], []⟩)
          ⟨2, [⟨[⟨['i', 'd'], .TYPE_INTEGER, 1, []⟩, ⟨['n', 'a', 'm', 'e'], .TYPE_STRING, 0, ['a']⟩]⟩,
               ⟨[⟨['i', 'd'], .TYPE_INTEGER, 2, []⟩, ⟨['n', 'a', 'm', 'e'], .TYPE_STRING, 0, ['b']⟩]⟩]⟩
          none = some e ∧
      renderAll e.out = ("+-----------+-----------+\n|        id |      name |\n" ++
        "+-----------+-----------+\n|         1 |         a |\n|         2 |         b |\n" ++
        "+-----------+-----------+\n2 rows in set\n").toList := by
  obtain ⟨e, h1, h2, _⟩ := printRecordSet_rows
    ⟨[⟨['i', 'd'], .TYPE_INTEGER⟩, ⟨['n', 'a', 'm', 'e'], .TYPE_STRING⟩], []⟩
    ⟨2, [⟨[⟨['i', 'd'], .TYPE_INTEGER, 1, []⟩, ⟨['n', 'a', 'm', 'e'], .TYPE_STRING, 0, ['a']⟩]⟩,
         ⟨[⟨['i', 'd'], .TYPE_INTEGER, 2, []⟩, ⟨['n', 'a', 'm', 'e'], .TYPE_STRING, 0, ['b']⟩]⟩]⟩
    none (by decide) (by decide) (by decide)
  refine ⟨e, h1, ?_⟩
  rw [h2]
  decide!

/-- C7 as stated fails: the table `(a Integer, b Double)`, a `RecordSet` of
one record with the single field value `5`, and no field list.  The list holds
`numRecord = 1` node and the first `record->numField = 1` schema field is of
type Integer.  `printTableHeader` displays `a`, meets `b`, releases the
`TableInfo` and returns; the row loop of `printRecordSet` then reads
`tableInfo->fieldInfo[0].dataType` from the released object, so that no
behaviour, and no row, is defined. -/
theorem printRecordSet_released_table :
    (1 : Int).toNat ≤ [(⟨[⟨['a'], .TYPE_INTEGER, 5, []⟩]⟩ : RecordData)].length ∧
    recordFits ⟨[⟨['a'], .TYPE_INTEGER⟩, ⟨['b'], .TYPE_DOUBLE⟩], []⟩
      ⟨[⟨['a'], .TYPE_INTEGER, 5, []⟩]⟩ ∧
    (printTableHeader ⟨[⟨['a'], .TYPE_INTEGER⟩, ⟨['b'], .TYPE_DOUBLE⟩], []⟩ none).map
      (fun h => h.freed) = some true ∧
    printRecordSet (some ⟨[⟨['a'], .TYPE_INTEGER⟩, ⟨['b'], .TYPE_DOUBLE⟩], []⟩)
      ⟨1, [⟨[⟨['a'], .TYPE_INTEGER, 5, []⟩]⟩]⟩ none = none := by
  refine ⟨by decide, by decide, by decide!, by decide!⟩

end MicroDB
